import Mathlib

/-!
Verification development for the modpack-merger engine (src/app.js).

The JavaScript source is shallowly embedded: each class method that the
claims touch is translated into an executable Lean function over explicit
data.  Strings are Lean `String`s, JS `Map`s become association lists that
are only read through `aget` and written through `aset` (JS `Map.set`
overwrites the binding of an existing key in place and appends otherwise;
since every map here is built from the empty map through `aset`, keys stay
unique and the recursive update below has exactly that behaviour), JS
`undefined`/absent fields become `Option`, and asynchronous effects
(network fetch, zip reading, JSON parsing) are passed in as explicit
oracle values.
-/

set_option maxHeartbeats 1000000

namespace ModpackMerger

/-- Association-list read, the embedding of `Map.get` / `Map.has`. -/
def aget {α : Type} : List (String × α) → String → Option α
  | [], _ => none
  | e :: rest, k => if e.1 = k then some e.2 else aget rest k

/-- Association-list write, the embedding of `Map.set` (overwrite or append). -/
def aset {α : Type} : List (String × α) → String → α → List (String × α)
  | [], k, v => [(k, v)]
  | e :: rest, k, v => if e.1 = k then (k, v) :: rest else e :: aset rest k v

/-! ## Version algebra: class `VersionComparator` (src/app.js lines 27-105) -/

namespace VersionComparator

/-- Digit run to number, the behaviour of `parseInt` on the all-digit
segments produced by `parse` (empty segment gives 0, as does
`parseInt('') || 0`). -/
def digitsToNat (ds : List Char) : Nat :=
  ds.foldl (fun a c => a * 10 + (c.toNat - 48)) 0

/-- Prepend a character to the first piece of a split. -/
def consHead (c : Char) : List (List Char) → List (List Char)
  | [] => [[c]]
  | p :: ps => (c :: p) :: ps

/-- `String.prototype.split(sep)` for a one-character separator. -/
def splitOnCh (sep : Char) : List Char → List (List Char)
  | [] => [[]]
  | c :: cs =>
    if c = sep then [] :: splitOnCh sep cs
    else consHead c (splitOnCh sep cs)

/-- `VersionComparator.parse`: substring before the first `+`, keep only
digits and dots, split on `.`, read the first three segments as numbers
(missing segments are 0).  The `raw` field is display-only and dropped. -/
def parseL (s : List Char) : Nat × Nat × Nat :=
  let cleaned := (s.takeWhile (fun c => c ≠ '+')).filter (fun c => c.isDigit || c = '.')
  let parts := (splitOnCh '.' cleaned).map digitsToNat
  (parts.getD 0 0, parts.getD 1 0, parts.getD 2 0)

def parse (s : String) : Nat × Nat × Nat := parseL s.toList

/-- Sign-bearing lexicographic difference of two parsed triples, the body
of `VersionComparator.compare` after both arguments are parsed. -/
def cmp3 (p q : Nat × Nat × Nat) : Int :=
  if p.1 ≠ q.1 then (p.1 : Int) - (q.1 : Int)
  else if p.2.1 ≠ q.2.1 then (p.2.1 : Int) - (q.2.1 : Int)
  else (p.2.2 : Int) - (q.2.2 : Int)

/-- `VersionComparator.compare`. -/
def compare (v1 v2 : String) : Int := cmp3 (parse v1) (parse v2)

/-- `VersionComparator.isNewer`. -/
def isNewer (v1 v2 : String) : Bool := compare v1 v2 > 0

/-- Decimal digits of a natural number (fuel-driven so that it reduces in
the kernel); embeds JS number-to-string interpolation for the
`${p.major}.${p.minor + 1}.0` template in `satisfies`. -/
def natToDigitsAux : Nat → Nat → List Char
  | 0, _ => []
  | fuel+1, n =>
    if n < 10 then [Char.ofNat (48 + n)]
    else natToDigitsAux fuel (n / 10) ++ [Char.ofNat (48 + n % 10)]

def natDigits (n : Nat) : List Char := natToDigitsAux (n + 1) n

/-- Tokens of the wildcard pattern `satisfies` compiles when the range
contains `x`/`*`: every `x` or `*` is `.*`, `.` is escaped, every other
character is matched literally. -/
inductive GTok where
  | lit (c : Char)
  | wild
deriving DecidableEq

def gtoks (rs : List Char) : List GTok :=
  rs.map (fun c => if c = 'x' || c = '*' then GTok.wild else GTok.lit c)

/-- The trailing `(|\+.*)$` group: the rest is empty or starts with `+`. -/
def plusTail : List Char → Bool
  | [] => true
  | c :: _ => c = '+'

/-- Anchored matching of the compiled wildcard pattern (fuel-driven; each
step shrinks tokens-plus-input, so the fuel chosen in `regexTest` always
suffices). -/
def globMatchF : Nat → List GTok → List Char → Bool
  | 0, _, _ => false
  | _+1, [], ds => plusTail ds
  | fuel+1, GTok.lit c :: ts, ds =>
    match ds with
    | [] => false
    | d :: rest => c = d && globMatchF fuel ts rest
  | fuel+1, GTok.wild :: ts, ds =>
    globMatchF fuel ts ds ||
      (match ds with
       | [] => false
       | _ :: rest => globMatchF fuel (GTok.wild :: ts) rest)

def regexTest (rs vs : List Char) : Bool :=
  let ts := gtoks rs
  globMatchF (ts.length + vs.length + 1) ts vs

/-- Whitespace class of the JS regex `\s` restricted to ASCII. -/
def isWsCh (c : Char) : Bool :=
  c = ' ' || c = '\t' || c = '\n' || c = '\r' || c = '\x0b' || c = '\x0c'

/-- One step of `String.prototype.split(/\s+/)`, folded from the right. -/
def splitWsStep (c : Char) : List (List Char) × Bool → List (List Char) × Bool
  | (ts, prevWs) =>
    if isWsCh c then
      if prevWs then (ts, true) else ([] :: ts, true)
    else
      match ts with
      | [] => ([[c]], false)
      | t :: rest => ((c :: t) :: rest, false)

def splitWsL (s : List Char) : List (List Char) :=
  (s.foldr splitWsStep ([[]], false)).1

/-- `String.prototype.trim` (ASCII whitespace). -/
def trimL (s : List Char) : List Char :=
  ((s.dropWhile isWsCh).reverse.dropWhile isWsCh).reverse

def listStarts : List Char → List Char → Bool
  | [], _ => true
  | _ :: _, [] => false
  | p :: ps, c :: cs => p = c && listStarts ps cs

def startsOpCh : List Char → Bool
  | [] => false
  | c :: _ => c = '>' || c = '=' || c = '<'

def lastIsRB (r : List Char) : Bool :=
  match r.getLast? with
  | some c => c = ']'
  | none => false

/-- The interval branch `[..]`/`(..)`/`(..]`/`[..)` and the final exact
comparison of `satisfies` (src/app.js lines 83-103). -/
def bracketOrExact (version r2 : List Char) : Bool :=
  if listStarts ['['] r2 || listStarts ['('] r2 then
    let inner := (r2.drop 1).dropLast
    let parts := splitOnCh ',' inner
    let minT := trimL (parts.getD 0 [])
    let maxPart := parts.getD 1 []
    let maxT := trimL maxPart
    let minOk :=
      if minT = [] then true
      else if listStarts ['['] r2 then decide (0 ≤ cmp3 (parseL version) (parseL minT))
      else decide (0 < cmp3 (parseL version) (parseL minT))
    let maxOk :=
      if maxPart = [] then true
      else if maxT = [] then true
      else if lastIsRB r2 then decide (cmp3 (parseL version) (parseL maxT) ≤ 0)
      else decide (cmp3 (parseL version) (parseL maxT) < 0)
    minOk && maxOk
  else decide (cmp3 (parseL version) (parseL r2) = 0)

/-- `VersionComparator.satisfies` after the space-separated conjunction has
been handled: empty/`*`/`any`, wildcard, tilde, comparator, interval,
exact (src/app.js lines 46-104). -/
def satisfies1L (version range : List Char) : Bool :=
  if range = [] ∨ range = ['*'] ∨ range = ['a', 'n', 'y'] then true
  else
    let hasWild := range.any (fun c => c = 'x') ||
      (range.any (fun c => c = '*') && decide (range ≠ ['*']))
    if hasWild && !startsOpCh range then regexTest range version
    else
      let r2 := if hasWild then range.map (fun c => if c = 'x' || c = '*' then '0' else c)
                else range
      if listStarts ['~'] r2 then
        let target := r2.drop 1
        let p := parseL target
        let maxL := natDigits p.1 ++ '.' :: natDigits (p.2.1 + 1) ++ ['.', '0']
        decide (0 ≤ cmp3 (parseL version) (parseL target)) &&
          decide (cmp3 (parseL version) (parseL maxL) < 0)
      else if listStarts ['>', '='] r2 then
        decide (0 ≤ cmp3 (parseL version) (parseL (r2.drop 2)))
      else if listStarts ['>'] r2 then
        decide (0 < cmp3 (parseL version) (parseL (r2.drop 1)))
      else if listStarts ['<', '='] r2 then
        decide (cmp3 (parseL version) (parseL (r2.drop 2)) ≤ 0)
      else if listStarts ['<'] r2 then
        decide (cmp3 (parseL version) (parseL (r2.drop 1)) < 0)
      else bracketOrExact version r2

/-- `VersionComparator.satisfies`: the space-separated (non-bracketed)
conjunction recurses into the single-part evaluator; a part produced by
splitting on whitespace contains no whitespace, so the recursion never
takes the space branch again and is inlined as `satisfies1L`. -/
def satisfiesL (version range : List Char) : Bool :=
  if range = [] ∨ range = ['*'] ∨ range = ['a', 'n', 'y'] then true
  else if range.any (fun c => c = ' ') && !listStarts ['['] range && !listStarts ['('] range then
    (splitWsL range).all (fun part => satisfies1L version (trimL part))
  else satisfies1L version range

def satisfies (version range : String) : Bool :=
  satisfiesL version.toList range.toList

end VersionComparator

/-! ## Data model shared by the resolver and the validators -/

/-- One entry of `metadata.mods` / `metadata.bundled`.  Fields that a JS
object may simply lack (`name`, `depends`, `provides`) are `Option`;
`provides` is `none` also when the JS value is not an array, mirroring the
`Array.isArray` guards in the source. -/
structure ModEntry where
  id : String
  version : String
  name : Option String := none
  depends : Option (List (String × String)) := none
  provides : Option (List String) := none
deriving DecidableEq, Repr

/-- The `{ mods, bundled }` record produced by `JarMetadataExtractor`. -/
structure ModMetadata where
  mods : List ModEntry
  bundled : List ModEntry
deriving DecidableEq, Repr

/-- A file record as consumed by `ConflictResolver.resolveByPriority`
(path, fileName, pId, pName, category, optional metadata plus the
resolution-time fields). -/
structure FileRec where
  path : String
  fileName : String
  pId : String
  pName : String
  category : String
  metadata : Option ModMetadata := none
  enabled : Bool := true
  isDuplicate : Bool := false
  keptSource : Option String := none
  conflictReason : Option String := none
deriving DecidableEq, Repr

/-- The slice of a loaded pack that `resolveByPriority` reads. -/
structure Pack where
  id : String
  name : String
deriving DecidableEq, Repr

/-! ## Class `ConflictResolver` (src/app.js lines 276-457) -/

namespace ConflictResolver

/-- Does the rest of the name start the version part of the marker
`[-+](?:\d|v\d)` (case-insensitively)? -/
def markerAfter : List Char → Bool
  | [] => false
  | d :: ds =>
    d.isDigit ||
      ((d = 'v' || d = 'V') &&
        (match ds with
         | [] => false
         | e :: _ => e.isDigit))

/-- Prefix of the name before the first position matching
`[-+](?:\d|v\d)`, i.e. the lazy group of `/^(.*?)(?:[-+](?:\d|v\d))/i`;
`none` when the regex does not match. -/
def findMarker : List Char → Option (List Char)
  | [] => none
  | c :: cs =>
    if (c = '-' || c = '+') && markerAfter cs then some []
    else (findMarker cs).map (fun p => c :: p)

def lowerL (s : List Char) : List Char := s.map Char.toLower

def listEnds (pat s : List Char) : Bool :=
  VersionComparator.listStarts pat.reverse s.reverse

def endsWithJarL (s : List Char) : Bool := listEnds ['.', 'j', 'a', 'r'] (lowerL s)

/-- `ConflictResolver.extractModSlug` (src/app.js lines 379-387). -/
def extractModSlug (filename : String) : String :=
  if !endsWithJarL filename.toList then filename
  else
    let name := filename.toList.take (filename.toList.length - 4)
    let name2 :=
      match findMarker name with
      | some p => p
      | none => name
    String.mk (VersionComparator.trimL (lowerL name2))

/-- Value stored in `modIdRegistry`. -/
structure ModIdReg where
  version : String
  packName : String
deriving DecidableEq, Repr

/-- Value stored in `slugRegistry`. -/
structure SlugReg where
  fileName : String
  packName : String
deriving DecidableEq, Repr

/-- The three registries threaded through `resolveByPriority`. -/
structure Regs where
  pathReg : List (String × String)
  modIdReg : List (String × ModIdReg)
  slugReg : List (String × SlugReg)
deriving DecidableEq, Repr

def emptyRegs : Regs := ⟨[], [], []⟩

/-- The version-conflict scan of lines 412-423: first mod of the file whose
id is registered with a strictly newer version (`compare < 0` from this
file's side), together with the registered entry; the JS loop breaks at
the first hit. -/
def findOlder (reg : List (String × ModIdReg)) : List ModEntry → Option (ModEntry × ModIdReg)
  | [] => none
  | m :: ms =>
    match aget reg m.id with
    | some e =>
      if VersionComparator.compare m.version e.version < 0 then some (m, e)
      else findOlder reg ms
    | none => findOlder reg ms

/-- Lines 431-436: register every `(mod.id → version, packName)` of a kept
file (`Map.set`, so a later duplicate id in the same list overwrites). -/
def registerAll (reg : List (String × ModIdReg)) (packName : String) :
    List ModEntry → List (String × ModIdReg)
  | [] => reg
  | m :: ms => registerAll (aset reg m.id ⟨m.version, packName⟩) packName ms

/-- Lines 439-453: the slug check, reached only by files the two earlier
checks kept. -/
def slugCheck (regs : Regs) (regName : String) (file : FileRec) : FileRec × Regs :=
  if file.category = "mods" then
    let slug := extractModSlug file.fileName
    match aget regs.slugReg slug with
    | some ex =>
      ({ file with enabled := false, isDuplicate := true,
                   keptSource := some ex.packName,
                   conflictReason := some ("Possible duplicate of " ++ ex.fileName) }, regs)
    | none =>
      (file, { regs with slugReg := aset regs.slugReg slug ⟨file.fileName, regName⟩ })
  else (file, regs)

/-- The body of the inner `for (const file of packFiles)` loop of
`resolveByPriority` (src/app.js lines 397-454) acting on one file record:
reset, path check, mod-id check, slug check. -/
def processFile (regs : Regs) (packName : String) (file : FileRec) : FileRec × Regs :=
  let file := { file with isDuplicate := false, enabled := true }
  match aget regs.pathReg file.path with
  | some kept =>
    ({ file with enabled := false, isDuplicate := true,
                 keptSource := some kept, conflictReason := some "Exact path duplicate" }, regs)
  | none =>
    let regName := if file.pName = "" then packName else file.pName
    let regs1 := { regs with pathReg := aset regs.pathReg file.path regName }
    match file.metadata with
    | some meta =>
      match findOlder regs1.modIdReg meta.mods with
      | some me =>
        ({ file with enabled := false, isDuplicate := true,
                     keptSource := some me.2.packName,
                     conflictReason := some ("Older version (Mod ID: " ++ me.1.id ++ ")") },
         regs1)
      | none =>
        slugCheck { regs1 with modIdReg := registerAll regs1.modIdReg regName meta.mods }
          regName file
    | none => slugCheck regs1 regName file

/-- One pack's pass over the file list: `files.filter(f => f.pId ===
pack.id)` iterated in list order, which a single in-order traversal that
only touches matching records reproduces exactly (the JS loop mutates the
records in place). -/
def resolvePackGo (p : Pack) (regs : Regs) : List FileRec → List FileRec × Regs
  | [] => ([], regs)
  | f :: fs =>
    if f.pId = p.id then
      let fr := processFile regs p.name f
      let rest := resolvePackGo p fr.2 fs
      (fr.1 :: rest.1, rest.2)
    else
      let rest := resolvePackGo p regs fs
      (f :: rest.1, rest.2)

def resolveStep (acc : List FileRec × Regs) (p : Pack) : List FileRec × Regs :=
  resolvePackGo p acc.2 acc.1

def resolveAux (packs : List Pack) (st : List FileRec × Regs) : List FileRec × Regs :=
  packs.foldl resolveStep st

/-- `ConflictResolver.resolveByPriority` (src/app.js lines 389-456): fresh
registries, packs walked in priority order. -/
def resolveByPriority (files : List FileRec) (packs : List Pack) : List FileRec :=
  (resolveAux packs (files, emptyRegs)).1

/-! ### Decision view of the per-file step, used by the proofs.
`processFile` factors through a pure decision on the static fields of the
record plus a registry update; this is proved below (`processFile_eq`),
not assumed. -/

/-- The fields of a file record that `resolveByPriority` reads but never
writes. -/
structure StaticF where
  path : String
  fileName : String
  pId : String
  pName : String
  category : String
  metadata : Option ModMetadata
deriving DecidableEq, Repr

def staticOf (f : FileRec) : StaticF :=
  ⟨f.path, f.fileName, f.pId, f.pName, f.category, f.metadata⟩

inductive Decision where
  | keep
  | exclude (keptSource : String) (reason : String)
deriving DecidableEq, Repr

def patch (f : FileRec) : Decision → FileRec
  | Decision.keep => { f with enabled := true, isDuplicate := false }
  | Decision.exclude ks r =>
    { f with enabled := false, isDuplicate := true,
             keptSource := some ks, conflictReason := some r }

def patchOpt (f : FileRec) : Option Decision → FileRec
  | none => f
  | some d => patch f d

def slugDecide (regs : Regs) (s : StaticF) : Decision :=
  if s.category = "mods" then
    match aget regs.slugReg (extractModSlug s.fileName) with
    | some ex => Decision.exclude ex.packName ("Possible duplicate of " ++ ex.fileName)
    | none => Decision.keep
  else Decision.keep

def decideFile (regs : Regs) (packName : String) (s : StaticF) : Decision :=
  match aget regs.pathReg s.path with
  | some kept => Decision.exclude kept "Exact path duplicate"
  | none =>
    let regName := if s.pName = "" then packName else s.pName
    let regs1 := { regs with pathReg := aset regs.pathReg s.path regName }
    match s.metadata with
    | some meta =>
      match findOlder regs1.modIdReg meta.mods with
      | some me =>
        Decision.exclude me.2.packName ("Older version (Mod ID: " ++ me.1.id ++ ")")
      | none =>
        slugDecide { regs1 with modIdReg := registerAll regs1.modIdReg regName meta.mods } s
    | none => slugDecide regs1 s

def slugRegsStep (regs : Regs) (regName : String) (s : StaticF) : Regs :=
  if s.category = "mods" then
    let slug := extractModSlug s.fileName
    match aget regs.slugReg slug with
    | some _ => regs
    | none => { regs with slugReg := aset regs.slugReg slug ⟨s.fileName, regName⟩ }
  else regs

def regsStep (regs : Regs) (packName : String) (s : StaticF) : Regs :=
  match aget regs.pathReg s.path with
  | some _ => regs
  | none =>
    let regName := if s.pName = "" then packName else s.pName
    let regs1 := { regs with pathReg := aset regs.pathReg s.path regName }
    match s.metadata with
    | some meta =>
      match findOlder regs1.modIdReg meta.mods with
      | some _ => regs1
      | none =>
        slugRegsStep { regs1 with modIdReg := registerAll regs1.modIdReg regName meta.mods }
          regName s
    | none => slugRegsStep regs1 regName s

/-- Per-pack decision list over the static views, mirroring
`resolvePackGo`; `none` marks a record the pack does not own. -/
def packDecide (p : Pack) (regs : Regs) : List StaticF → List (Option Decision) × Regs
  | [] => ([], regs)
  | s :: ss =>
    if s.pId = p.id then
      let d := decideFile regs p.name s
      let rest := packDecide p (regsStep regs p.name s) ss
      (some d :: rest.1, rest.2)
    else
      let rest := packDecide p regs ss
      (none :: rest.1, rest.2)

/-- Decision column of one record index across the whole pack walk. -/
def decisionCol : List Pack → Regs → List StaticF → Nat → List (Option Decision)
  | [], _, _, _ => []
  | p :: ps, regs, ss, i =>
    (((packDecide p regs ss).1.get? i).getD none) ::
      decisionCol ps (packDecide p regs ss).2 ss i

/-- Net effect of a decision column: last keep/exclude verdict and the
data of the last exclude. -/
def sumStep (acc : Option Bool × Option (String × String)) :
    Option Decision → Option Bool × Option (String × String)
  | none => acc
  | some Decision.keep => (some true, acc.2)
  | some (Decision.exclude k r) => (some false, some (k, r))

def applySummary (f : FileRec) (s : Option Bool × Option (String × String)) : FileRec :=
  let f1 :=
    match s.1 with
    | none => f
    | some b => { f with enabled := b, isDuplicate := !b }
  match s.2 with
  | none => f1
  | some kr => { f1 with keptSource := some kr.1, conflictReason := some kr.2 }

end ConflictResolver

/-! ## Class `DependencyValidator` (src/app.js lines 220-274) -/

namespace DependencyValidator

/-- Value of the resolver's `modRegistry`, set at src/app.js line 324. -/
structure RegEntry where
  metadata : ModMetadata
  fileName : String
  packName : String
deriving DecidableEq, Repr

/-- Entry of the `presentMods` index. -/
structure Present where
  version : String
  fileName : String
  packName : String
  isProvided : Bool := false
deriving DecidableEq, Repr

/-- A reported dependency issue (the `issues.push` records of lines
250-267). -/
structure DepIssue where
  type : String
  modId : String
  requiredBy : String
  requiredVersion : String
  presentVersion : Option String := none
  message : String
deriving DecidableEq, Repr

/-- First pass of `validate`: the presence index.  Every primary/extra mod
is registered, `provides` aliases only when not already present, bundled
entries unconditionally (overwriting), in registry iteration order. -/
def addEntryPresent (pm : List (String × Present)) (e : RegEntry) : List (String × Present) :=
  let afterMods := e.metadata.mods.foldl
    (fun acc m =>
      let acc1 := aset acc m.id ⟨m.version, e.fileName, e.packName, false⟩
      match m.provides with
      | some ps =>
        ps.foldl
          (fun a pId =>
            match aget a pId with
            | some _ => a
            | none => aset a pId ⟨m.version, e.fileName, e.packName, true⟩) acc1
      | none => acc1)
    pm
  e.metadata.bundled.foldl (fun acc m => aset acc m.id ⟨m.version, e.fileName, e.packName, false⟩)
    afterMods

def buildPresent (reg : List (String × RegEntry)) : List (String × Present) :=
  reg.foldl (fun acc e => addEntryPresent acc e.2) []

/-- The platform/runtime identifiers skipped at line 247. -/
def platformIds : List String :=
  ["minecraft", "java", "fabricloader", "fabric", "quiltloader", "forge", "neoforge",
   "liteloader", "mixinextras", "mixinextra", "mixins", "cloth-config", "cloth-config2"]

def lowerStr (s : String) : String := String.mk (ConflictResolver.lowerL s.toList)

/-- One dependency of the primary mod: skipped, missing, outdated, or fine. -/
def depIssue (pm : List (String × Present)) (primary : ModEntry) (dr : String × String) :
    Option DepIssue :=
  if platformIds.contains (lowerStr dr.1) then none
  else
    match aget pm dr.1 with
    | none =>
      some { type := "missing", modId := dr.1, requiredBy := primary.id,
             requiredVersion := dr.2,
             message := "Mod '" ++ primary.id ++ "' requires '" ++ dr.1 ++ "' (" ++ dr.2 ++
               "), but it's missing!" }
    | some present =>
      if VersionComparator.satisfies present.version dr.2 then none
      else
        some { type := "outdated", modId := dr.1, requiredBy := primary.id,
               requiredVersion := dr.2, presentVersion := some present.version,
               message := "Mod '" ++ primary.id ++ "' requires version '" ++ dr.2 ++ "' of '" ++
                 dr.1 ++ "', but version '" ++ present.version ++ "' is installed!" }

/-- Issues contributed by one registry entry: only the primary mod's
`depends` is walked; entries without mods or without a `depends` object
contribute nothing (the early `return`s of lines 241-244). -/
def entryIssues (pm : List (String × Present)) (e : RegEntry) : List DepIssue :=
  match e.metadata.mods with
  | [] => []
  | primary :: _ =>
    match primary.depends with
    | none => []
    | some deps => deps.filterMap (depIssue pm primary)

/-- `DependencyValidator.validate` (src/app.js lines 221-273). -/
def validate (reg : List (String × RegEntry)) : List DepIssue :=
  reg.flatMap (fun e => entryIssues (buildPresent reg) e.2)

end DependencyValidator

/-! ## Class `JarMetadataExtractor` (src/app.js lines 107-217) and the
metadata side of `ConflictResolver.analyzeFiles` (lines 282-333).

Zip contents, JSON parsing and the network are abstracted into oracle
data: a `ZipData` records, for each manifest the extractor probes, whether
the file exists and whether reading/parsing it succeeds; nested jars carry
their own resolved `ZipData`.  `Option (Option _)` is "file present?"
outside and "read/parse succeeded?" inside. -/

/-- The JS `provides` field: absent (or falsy), a JSON array, or a JSON
object from which only the keys are taken (lines 160-164). -/
inductive ProvidesVal where
  | absent
  | arr (ids : List String)
  | obj (keys : List String)
deriving DecidableEq, Repr

/-- One `[[dependencies.<id>]]` block of a Forge manifest after the regex
extraction of lines 199-209: the trimmed id, the `versionRange` capture
and the `mandatory` capture, when the respective regexes matched. -/
structure ForgeBlock where
  depId : String
  versionRange : Option String
  mandatory : Option Bool
deriving DecidableEq, Repr

/-- Regex-level content of a `META-INF/mods.toml` (lines 192-204). -/
structure ForgeData where
  modId : Option String
  version : Option String
  blocks : List ForgeBlock
deriving DecidableEq, Repr

mutual
/-- Probe results of one archive. -/
inductive ZipData where
  | mk (fabric : Option (Option FabricJson)) (forge : Option (Option ForgeData))

/-- Parsed `fabric.mod.json` fields the extractor reads. `jars` is `none`
when absent or not an array. -/
inductive FabricJson where
  | mk (id : Option String) (version : Option String) (name : Option String)
      (depends : Option (List (String × String))) (provides : ProvidesVal)
      (jars : Option (List FabricJar))

/-- One `jars[*]` entry: its `file` name and, when `zip.file(jar.file)`
finds it, whether loading it as a zip succeeds and what it contains. -/
inductive FabricJar where
  | mk (file : String) (entry : Option (Option ZipData))
end

namespace JarMetadataExtractor

/-- The fallback of `extract`/`parseMetadata` (lines 129, 143, 146): note
that it carries no `depends` field at all. -/
def fallbackMeta (fileName : String) : ModMetadata :=
  { mods := [{ id := fileName, version := "unknown" }], bundled := [] }

/-- The fallback of the `parseFabricMod`/`parseForgeMod` catch blocks
(lines 185, 214): id is the literal `parse_error`, `depends` is empty. -/
def parseErrMeta : ModMetadata :=
  { mods := [{ id := "parse_error", version := "unknown", depends := some [] }], bundled := [] }

/-- `data.id || 'unknown'` / `data.version || 'unknown'`. -/
def orUnknown : Option String → String
  | none => "unknown"
  | some s => if s = "" then "unknown" else s

def providesList : ProvidesVal → List String
  | ProvidesVal.absent => []
  | ProvidesVal.arr l => l
  | ProvidesVal.obj keys => keys

/-- The `depends` object built by `parseForgeMod`: mandatory blocks only,
range capture or `*`. -/
def forgeDepends (blocks : List ForgeBlock) : List (String × String) :=
  blocks.foldl
    (fun acc b =>
      if b.mandatory = some true then aset acc b.depId (b.versionRange.getD "*") else acc) []

/-- `JarMetadataExtractor.parseForgeMod` (lines 189-216); `none` input is
a read failure caught by its catch block. -/
def parseForgeMod : Option ForgeData → ModMetadata
  | none => parseErrMeta
  | some d =>
    { mods := [{ id := d.modId.getD "unknown", version := d.version.getD "unknown",
                 depends := some (forgeDepends d.blocks) }],
      bundled := [] }

mutual
/-- `JarMetadataExtractor.parseMetadata` (lines 135-148): fabric manifest
first, then forge, then the file-name fallback. -/
def parseMetadata : ZipData → String → ModMetadata
  | ZipData.mk (some fj) _, _ => parseFabricMod fj
  | ZipData.mk none (some fd), _ => parseForgeMod fd
  | ZipData.mk none none, fileName => fallbackMeta fileName

/-- `JarMetadataExtractor.parseFabricMod` (lines 150-187); `none` input is
a read/JSON failure caught by its catch block, which yields the
`parse_error` record. -/
def parseFabricMod : Option FabricJson → ModMetadata
  | none => parseErrMeta
  | some (FabricJson.mk i v n dep prov none) =>
    { mods := [{ id := orUnknown i, version := orUnknown v, name := n,
                 depends := some (dep.getD []), provides := some (providesList prov) }],
      bundled := [] }
  | some (FabricJson.mk i v n dep prov (some js)) =>
    { mods := [{ id := orUnknown i, version := orUnknown v, name := n,
                 depends := some (dep.getD []), provides := some (providesList prov) }],
      bundled := parseJars js }

/-- The `data.jars` loop (lines 167-180): a missing entry or a failed
nested load is skipped (warning only); a parsed nested archive contributes
its `mods`. -/
def parseJars : List FabricJar → List ModEntry
  | [] => []
  | FabricJar.mk fname (some (some z)) :: rest => (parseMetadata z fname).mods ++ parseJars rest
  | _ :: rest => parseJars rest
end

/-- The extractor's memoization cache: `url → (metadata, blob present?)`. -/
abbrev Cache := List (String × (ModMetadata × Bool))

structure ExtractOut where
  metadata : ModMetadata
  cache : Cache
  fetches : Nat
  parses : Nat
deriving Repr

/-- `JarMetadataExtractor.extract` (lines 112-133) with the network as an
oracle `env` (`none` models a fetch/zip failure) and instrumentation
counting fetches performed and `parseMetadata` invocations. -/
def extract (env : String → Option ZipData) (cache : Cache) (url fileName : String) :
    ExtractOut :=
  match aget cache url with
  | some v => ⟨v.1, cache, 0, 0⟩
  | none =>
    match env url with
    | some z =>
      let m := parseMetadata z fileName
      ⟨m, aset cache url (m, true), 1, 1⟩
    | none =>
      ⟨fallbackMeta fileName, aset cache url (fallbackMeta fileName, false), 1, 0⟩

end JarMetadataExtractor

namespace ConflictResolver

/-- The slice of a file record that `analyzeFiles` reads. -/
structure AFile where
  path : String
  fileName : String
  pId : String
  pName : String
  category : String
  enabled : Bool
  isStandard : Bool
  downloads : List String := []
deriving DecidableEq, Repr

/-- The `modRegistry` key chosen at src/app.js line 323. -/
def sourceKey (f : AFile) : String :=
  if f.isStandard then "local:" ++ f.pId ++ ":" ++ f.path else f.downloads.getD 0 ""

structure AnState where
  enriched : List (AFile × Option ModMetadata)
  registry : List (String × DependencyValidator.RegEntry)
  cache : JarMetadataExtractor.Cache
  fetches : Nat
  parses : Nat

/-- One analyzed file (the body of the batch map at lines 303-318 plus the
registry update at lines 321-329).  For a standard file the source passes
the raw archive entry where `parseMetadata` expects a zip, so the probe
`zip.file(...)` throws inside `parseMetadata`'s try and its catch returns
the file-name fallback: the parse attempt is counted, its result is always
`fallbackMeta`.  `detectConflicts` (lines 335-364) looks primary mod ids
up in `modRegistry`, whose keys are source keys, so it finds nothing for
well-formed inputs (and a hit would fault on the absent `version` field);
no claim concerns it and the per-file conflict list is not modelled. -/
def analyzeOne (env : String → Option ZipData) (st : AnState) (f : AFile) : AnState :=
  if f.isStandard then
    let m := JarMetadataExtractor.fallbackMeta f.fileName
    { st with parses := st.parses + 1,
              enriched := st.enriched ++ [(f, some m)],
              registry := aset st.registry (sourceKey f) ⟨m, f.fileName, f.pName⟩ }
  else
    let r := JarMetadataExtractor.extract env st.cache (f.downloads.getD 0 "") f.fileName
    { st with cache := r.cache, fetches := st.fetches + r.fetches,
              parses := st.parses + r.parses,
              enriched := st.enriched ++ [(f, some r.metadata)],
              registry := aset st.registry (sourceKey f) ⟨r.metadata, f.fileName, f.pName⟩ }

/-- `ConflictResolver.analyzeFiles` (lines 282-333): the registry is
cleared, disabled/non-mods files pass through with `metadata = none`,
enabled mods files are fetched/parsed in submission order (the batches of
5 await in submission order, so the sequential fold reproduces the
enrichment, registry and cache they produce). -/
def analyzeFiles (env : String → Option ZipData) (cache : JarMetadataExtractor.Cache)
    (files : List AFile) : AnState :=
  let toAnalyze := files.filter (fun f => f.enabled && f.category = "mods")
  let skipped := files.filter (fun f => !(f.enabled && f.category = "mods"))
  let st0 : AnState :=
    { enriched := skipped.map (fun f => (f, none)), registry := [], cache := cache,
      fetches := 0, parses := 0 }
  toAnalyze.foldl (analyzeOne env) st0

/-- Spec-side slug: written from the specification's words ("drop a
trailing `.jar`, then strip everything from the first occurrence of
`[-+](digit | v-digit)` onward, lowercase, trim") as an index search, to
be compared with the source's `extractModSlug`. -/
def isMarkerIdx (cs : List Char) (i : Nat) : Bool :=
  (cs.getD i ' ' = '-' || cs.getD i ' ' = '+') &&
    ((cs.getD (i + 1) ' ').isDigit ||
      ((cs.getD (i + 1) ' ' = 'v' || cs.getD (i + 1) ' ' = 'V') && (cs.getD (i + 2) ' ').isDigit))

/-- Spec-side slug of a `.jar` file name (see `isMarkerIdx`). -/
def slugSpec (filename : String) : String :=
  let base := filename.toList.take (filename.toList.length - 4)
  let cut :=
    match (List.range base.length).find? (fun i => isMarkerIdx base i) with
    | some i => base.take i
    | none => base
  String.mk (VersionComparator.trimL (lowerL cut))

end ConflictResolver

/-! ## Concrete fixtures used by scenario parts, counterexamples and
witnesses -/

def demoPackA : Pack := ⟨"A", "Pack A"⟩
def demoPackB : Pack := ⟨"B", "Pack B"⟩

/-- Pack A's `mods/libX-1.2.0.jar` with metadata `libx@1.2.0`. -/
def demoFA : FileRec :=
  { path := "mods/libX-1.2.0.jar", fileName := "libX-1.2.0.jar", pId := "A", pName := "Pack A",
    category := "mods",
    metadata := some { mods := [{ id := "libx", version := "1.2.0" }], bundled := [] } }

/-- Pack B's `mods/libX-1.1.0.jar` with metadata `libx@1.1.0`. -/
def demoFB : FileRec :=
  { path := "mods/libX-1.1.0.jar", fileName := "libX-1.1.0.jar", pId := "B", pName := "Pack B",
    category := "mods",
    metadata := some { mods := [{ id := "libx", version := "1.1.0" }], bundled := [] } }

/-- Pack A's metadata-less `mods/journeymap-5.9.jar`. -/
def demoJA : FileRec :=
  { path := "mods/journeymap-5.9.jar", fileName := "journeymap-5.9.jar", pId := "A",
    pName := "Pack A", category := "mods" }

/-- Pack B's metadata-less `mods/journeymap-5.9-fabric.jar`. -/
def demoJB : FileRec :=
  { path := "mods/journeymap-5.9-fabric.jar", fileName := "journeymap-5.9-fabric.jar",
    pId := "B", pName := "Pack B", category := "mods" }

/-- An enabled file whose `pId` matches no pack of the demo pack lists. -/
def demoOrphan1 : FileRec :=
  { path := "mods/foo.jar", fileName := "foo.jar", pId := "Z1", pName := "Ghost 1",
    category := "mods" }

def demoOrphan2 : FileRec :=
  { path := "mods/foo.jar", fileName := "foo.jar", pId := "Z2", pName := "Ghost 2",
    category := "mods" }

/-- `demoJA` with leftover resolution fields from some earlier run. -/
def demoJAStale : FileRec :=
  { demoJA with keptSource := some "Ghost pack", conflictReason := some "Exact path duplicate" }

/-- A registry with mod `a` depending on `b >= 2.0.0` while only
`b@1.5.0` is present. -/
def demoDepReg : List (String × DependencyValidator.RegEntry) :=
  [("urlA", { metadata := { mods := [{ id := "a", version := "1.0.0",
                                       depends := some [("b", ">=2.0.0")] }], bundled := [] },
              fileName := "a-1.0.0.jar", packName := "Pack A" }),
   ("urlB", { metadata := { mods := [{ id := "b", version := "1.5.0",
                                       depends := some [] }], bundled := [] },
              fileName := "b-1.5.0.jar", packName := "Pack B" })]

/-- The single issue the demo registry must produce. -/
def demoDepIssue : DependencyValidator.DepIssue :=
  { type := "outdated", modId := "b", requiredBy := "a", requiredVersion := ">=2.0.0",
    presentVersion := some "1.5.0",
    message := "Mod 'a' requires version '>=2.0.0' of 'b', but version '1.5.0' is installed!" }

/-- An archive whose `fabric.mod.json` exists but fails to parse. -/
def demoBrokenZip : ZipData := ZipData.mk (some none) none

/-- A standard (local) mods file for the cache claims. -/
def demoStd : ConflictResolver.AFile :=
  { path := "mods/a.jar", fileName := "a.jar", pId := "p1", pName := "Pack 1",
    category := "mods", enabled := true, isStandard := true }

/-- A network oracle on which every fetch fails. -/
def demoEnvNone : String → Option ZipData := fun _ => none

/-! # Theorems -/

/-! ## Association-list lemmas -/

theorem aget_aset {α : Type} (m : List (String × α)) (k : String) (v : α) (q : String) :
    aget (aset m k v) q = if k = q then some v else aget m q := by
  induction m with
  | nil => by_cases h : k = q <;> simp [aget, aset, h]
  | cons e rest ih =>
    simp only [aset]
    by_cases h1 : e.1 = k
    · rw [if_pos h1]
      by_cases h2 : k = q <;> simp [aget, h1, h2]
    · rw [if_neg h1]
      by_cases h2 : e.1 = q
      · have h3 : ¬k = q := fun hh => h1 (h2.trans hh.symm)
        simp [aget, h2, h3]
      · simp [aget, h2, ih]

theorem aget_aset_self {α : Type} (m : List (String × α)) (k : String) (v : α) :
    aget (aset m k v) k = some v := by
  simp [aget_aset]

theorem aget_aset_isSome {α : Type} (m : List (String × α)) (k : String) (v : α) (q : String)
    (h : (aget m q).isSome = true) : (aget (aset m k v) q).isSome = true := by
  rw [aget_aset]
  by_cases hk : k = q <;> simp [hk, h]

theorem aget_aset_dom {α : Type} (m : List (String × α)) (k : String) (v : α) (q : String)
    (h : (aget (aset m k v) q).isSome = true) :
    q = k ∨ (aget m q).isSome = true := by
  rw [aget_aset] at h
  by_cases hk : k = q
  · exact Or.inl hk.symm
  · simp [hk] at h
    exact Or.inr h

/-! ## Version comparison: the order structure of `compare` -/

theorem cmp3_self (p : Nat × Nat × Nat) : VersionComparator.cmp3 p p = 0 := by
  simp [VersionComparator.cmp3]

theorem cmp3_neg (p q : Nat × Nat × Nat) :
    VersionComparator.cmp3 p q = -(VersionComparator.cmp3 q p) := by
  rcases p with ⟨a, b, c⟩
  rcases q with ⟨d, e, f⟩
  simp only [VersionComparator.cmp3]
  split_ifs <;> omega

theorem cmp3_pos_trans (p q r : Nat × Nat × Nat)
    (h1 : 0 < VersionComparator.cmp3 p q) (h2 : 0 < VersionComparator.cmp3 q r) :
    0 < VersionComparator.cmp3 p r := by
  rcases p with ⟨a, b, c⟩
  rcases q with ⟨d, e, f⟩
  rcases r with ⟨g, i, j⟩
  simp only [VersionComparator.cmp3] at h1 h2 ⊢
  split_ifs at h1 h2 ⊢ <;> omega

/-- C9. Version comparison is lexicographic over the parsed
`(major, minor, patch)` triple and a total preorder: `compare v v = 0`,
the sign of `compare` is antisymmetric, and strict positivity is
transitive. -/
theorem C9_compare_total_preorder :
    (∀ v : String, VersionComparator.compare v v = 0) ∧
    (∀ a b : String,
      (VersionComparator.compare a b).sign = -(VersionComparator.compare b a).sign) ∧
    (∀ a b c : String, 0 < VersionComparator.compare a b →
      0 < VersionComparator.compare b c → 0 < VersionComparator.compare a c) := by
  refine ⟨fun v => cmp3_self _, fun a b => ?_, fun a b c h1 h2 => cmp3_pos_trans _ _ _ h1 h2⟩
  rw [VersionComparator.compare, cmp3_neg, Int.sign_neg]
  rfl

/-- Witness instantiating the transitivity component of C9 at concrete
versions. -/
theorem C9_compare_total_preorder_witness :
    0 < VersionComparator.compare "2.0.0" "0.5.1" :=
  C9_compare_total_preorder.2.2 "2.0.0" "1.0.0" "0.5.1" (by decide) (by decide)

/-! ## Decimal rendering and parsing lemmas (for the tilde range) -/

theorem digitChar_props (m : Nat) (h : m < 10) :
    (Char.ofNat (48 + m)).toNat = 48 + m ∧ (Char.ofNat (48 + m)).isDigit = true ∧
      Char.ofNat (48 + m) ≠ '.' ∧ Char.ofNat (48 + m) ≠ '+' := by
  interval_cases m <;> exact ⟨by decide, by decide, by decide, by decide⟩

theorem digitsToNat_append (ds : List Char) (c : Char) :
    VersionComparator.digitsToNat (ds ++ [c]) =
      VersionComparator.digitsToNat ds * 10 + (c.toNat - 48) := by
  simp [VersionComparator.digitsToNat, List.foldl_append]

theorem natToDigitsAux_val : ∀ fuel n : Nat, n < fuel →
    VersionComparator.digitsToNat (VersionComparator.natToDigitsAux fuel n) = n := by
  intro fuel
  induction fuel with
  | zero => intro n h; omega
  | succ f ih =>
    intro n h
    by_cases h10 : n < 10
    · rw [VersionComparator.natToDigitsAux, if_pos h10]
      simp [VersionComparator.digitsToNat, (digitChar_props n h10).1]
    · have hd : n / 10 < f := by
        have := Nat.div_lt_self (show 0 < n by omega) (show 1 < 10 by norm_num)
        omega
      have hm : n % 10 < 10 := Nat.mod_lt _ (by norm_num)
      rw [VersionComparator.natToDigitsAux, if_neg h10, digitsToNat_append, ih _ hd,
        (digitChar_props _ hm).1]
      omega

theorem natDigits_val (n : Nat) :
    VersionComparator.digitsToNat (VersionComparator.natDigits n) = n :=
  natToDigitsAux_val _ _ (Nat.lt_succ_self n)

theorem natToDigitsAux_chars : ∀ fuel n : Nat, ∀ c : Char,
    c ∈ VersionComparator.natToDigitsAux fuel n →
      c.isDigit = true ∧ c ≠ '.' ∧ c ≠ '+' := by
  intro fuel
  induction fuel with
  | zero => intro n c h; simp [VersionComparator.natToDigitsAux] at h
  | succ f ih =>
    intro n c h
    by_cases h10 : n < 10
    · rw [VersionComparator.natToDigitsAux, if_pos h10] at h
      simp at h
      subst h
      exact (digitChar_props n h10).2
    · rw [VersionComparator.natToDigitsAux, if_neg h10] at h
      rcases List.mem_append.1 h with h | h
      · exact ih _ _ h
      · simp at h
        subst h
        exact (digitChar_props _ (Nat.mod_lt _ (by norm_num))).2

theorem natDigits_chars (n : Nat) (c : Char) (h : c ∈ VersionComparator.natDigits n) :
    c.isDigit = true ∧ c ≠ '.' ∧ c ≠ '+' :=
  natToDigitsAux_chars _ _ _ h

theorem splitOnCh_no_sep (sep : Char) (xs : List Char) (h : sep ∉ xs) :
    VersionComparator.splitOnCh sep xs = [xs] := by
  induction xs with
  | nil => rfl
  | cons c cs ih =>
    have hc : ¬c = sep := fun hh => h (hh ▸ List.mem_cons_self c cs)
    have hcs : sep ∉ cs := fun hh => h (List.mem_cons_of_mem _ hh)
    rw [VersionComparator.splitOnCh, if_neg hc, ih hcs]
    rfl

theorem splitOnCh_append (sep : Char) (xs ys : List Char) (h : sep ∉ xs) :
    VersionComparator.splitOnCh sep (xs ++ sep :: ys) =
      xs :: VersionComparator.splitOnCh sep ys := by
  induction xs with
  | nil =>
    show VersionComparator.splitOnCh sep (sep :: ys) = _
    rw [VersionComparator.splitOnCh, if_pos rfl]
  | cons c cs ih =>
    have hc : ¬c = sep := fun hh => h (hh ▸ List.mem_cons_self c cs)
    have hcs : sep ∉ cs := fun hh => h (List.mem_cons_of_mem _ hh)
    show VersionComparator.splitOnCh sep (c :: (cs ++ sep :: ys)) = _
    rw [VersionComparator.splitOnCh, if_neg hc, ih hcs]
    rfl

/-- Parsing a list of the shape `A.B.0`, with `A` and `B` runs of digits,
yields the two rendered numbers and a zero patch. -/
theorem parseL_shape (dA dB : List Char)
    (hA : ∀ c ∈ dA, c.isDigit = true ∧ c ≠ '.' ∧ c ≠ '+')
    (hB : ∀ c ∈ dB, c.isDigit = true ∧ c ≠ '.' ∧ c ≠ '+') :
    VersionComparator.parseL (dA ++ ('.' :: (dB ++ ['.', '0']))) =
      (VersionComparator.digitsToNat dA, VersionComparator.digitsToNat dB, 0) := by
  have hmem : ∀ c ∈ dA ++ ('.' :: (dB ++ ['.', '0'])),
      (c.isDigit || decide (c = '.')) = true ∧ ¬c = '+' := by
    intro c hc
    rcases List.mem_append.1 hc with h | h
    · rcases hA c h with ⟨h1, _, h3⟩
      exact ⟨by simp [h1], h3⟩
    · rcases List.mem_cons.1 h with h | h
      · subst h
        exact ⟨by decide, by decide⟩
      · rcases List.mem_append.1 h with h | h
        · rcases hB c h with ⟨h1, _, h3⟩
          exact ⟨by simp [h1], h3⟩
        · rcases List.mem_cons.1 h with h | h
          · subst h
            exact ⟨by decide, by decide⟩
          · rcases List.mem_singleton.1 h with h
            subst h
            exact ⟨by decide, by decide⟩
  rw [VersionComparator.parseL]
  have htake : (dA ++ ('.' :: (dB ++ ['.', '0']))).takeWhile (fun c => decide (c ≠ '+')) =
      dA ++ ('.' :: (dB ++ ['.', '0'])) := by
    rw [List.takeWhile_eq_self_iff]
    intro c hc
    simpa using (hmem c hc).2
  have hfilter :
      (dA ++ ('.' :: (dB ++ ['.', '0']))).filter (fun c => c.isDigit || decide (c = '.')) =
        dA ++ ('.' :: (dB ++ ['.', '0'])) := by
    rw [List.filter_eq_self]
    intro c hc
    exact (hmem c hc).1
  rw [htake, hfilter]
  have hdotA : '.' ∉ dA := fun hh => ((hA _ hh).2.1) rfl
  have hdotB : '.' ∉ dB := fun hh => ((hB _ hh).2.1) rfl
  have hsplit : VersionComparator.splitOnCh '.' (dA ++ ('.' :: (dB ++ ['.', '0']))) =
      [dA, dB, ['0']] := by
    rw [splitOnCh_append '.' dA _ hdotA, splitOnCh_append '.' dB _ hdotB]
    rfl
  rw [hsplit]
  rfl

/-- Parsing the rendered string `M.(m+1).0` recovers the intended triple. -/
theorem parseL_nextMinor (a b : Nat) :
    VersionComparator.parseL
      (VersionComparator.natDigits a ++
        ('.' :: (VersionComparator.natDigits (b + 1) ++ ['.', '0']))) =
      (a, b + 1, 0) := by
  rw [parseL_shape _ _ (fun c hc => natDigits_chars _ _ hc) (fun c hc => natDigits_chars _ _ hc),
    natDigits_val, natDigits_val]

/-! ## C8: the tilde range -/

/-- C8. `satisfies(version, "~v")` (for a tilde range that contains no
whitespace and no wildcard, i.e. one that reaches the tilde rule) holds
exactly when `v ≤ version < next-minor(v)` under the version comparator,
with `next-minor((M, m, p)) = (M, m+1, 0)`; in particular `~1.2.3` admits
`1.2.3` and `1.2.99` and rejects `1.3.0` and `1.2.2`. -/
theorem C8_tilde_satisfies :
    (∀ version v : String, ' ' ∉ v.toList → 'x' ∉ v.toList → '*' ∉ v.toList →
      (VersionComparator.satisfies version ("~" ++ v) = true ↔
        (0 ≤ VersionComparator.compare version v ∧
          VersionComparator.cmp3 (VersionComparator.parse version)
            ((VersionComparator.parse v).1, (VersionComparator.parse v).2.1 + 1, 0) < 0))) ∧
    VersionComparator.satisfies "1.2.3" "~1.2.3" = true ∧
    VersionComparator.satisfies "1.2.99" "~1.2.3" = true ∧
    VersionComparator.satisfies "1.3.0" "~1.2.3" = false ∧
    VersionComparator.satisfies "1.2.2" "~1.2.3" = false := by
  refine ⟨?_, by decide, by decide, by decide, by decide⟩
  intro version v hsp hx hstar
  have hvl : ("~" ++ v).toList = '~' :: v.toList := by
    show ("~" ++ v).data = '~' :: v.data
    rw [String.data_append]
    rfl
  have hanysp : (('~' :: v.toList).any fun c => decide (c = ' ')) = false := by
    rw [List.any_eq_false]
    intro c hc
    rcases List.mem_cons.1 hc with h | h
    · subst h; decide
    · exact fun hh => hsp ((of_decide_eq_true hh) ▸ h)
  have hanyx : (('~' :: v.toList).any fun c => decide (c = 'x')) = false := by
    rw [List.any_eq_false]
    intro c hc
    rcases List.mem_cons.1 hc with h | h
    · subst h; decide
    · exact fun hh => hx ((of_decide_eq_true hh) ▸ h)
  have hanystar : (('~' :: v.toList).any fun c => decide (c = '*')) = false := by
    rw [List.any_eq_false]
    intro c hc
    rcases List.mem_cons.1 hc with h | h
    · subst h; decide
    · exact fun hh => hstar ((of_decide_eq_true hh) ▸ h)
  have hne1 : ¬('~' :: v.toList = [] ∨ '~' :: v.toList = ['*'] ∨
      '~' :: v.toList = ['a', 'n', 'y']) := by
    rintro (h | h | h)
    · exact List.cons_ne_nil _ _ h
    · have h2 := congrArg List.head? h
      simp only [List.head?_cons] at h2
      exact absurd h2 (by decide)
    · have h2 := congrArg List.head? h
      simp only [List.head?_cons] at h2
      exact absurd h2 (by decide)
  have hbridge : VersionComparator.satisfiesL version.toList ('~' :: v.toList) =
      (decide (0 ≤ VersionComparator.cmp3 (VersionComparator.parseL version.toList)
          (VersionComparator.parseL v.toList)) &&
        decide (VersionComparator.cmp3 (VersionComparator.parseL version.toList)
          ((VersionComparator.parseL v.toList).1,
            (VersionComparator.parseL v.toList).2.1 + 1, 0) < 0)) := by
    simp only [VersionComparator.satisfiesL, VersionComparator.satisfies1L, hanysp, hanyx,
      hanystar, if_neg hne1]
    simp [VersionComparator.listStarts, parseL_nextMinor]
  show VersionComparator.satisfiesL version.toList ("~" ++ v).toList = true ↔ _
  rw [hvl, hbridge]
  simp only [Bool.and_eq_true, decide_eq_true_eq]
  exact Iff.rfl

/-- Witness instantiating the general half of C8 at `~1.2.3` and
version `1.2.10`. -/
theorem C8_tilde_satisfies_witness :
    VersionComparator.satisfies "1.2.10" "~1.2.3" = true :=
  ((C8_tilde_satisfies.1 "1.2.10" "1.2.3" (by decide) (by decide) (by decide)).2
    ⟨by decide, by decide⟩)

/-! ## C7: dependency validation -/

/-- C7. For every primary `ModEntry` whose `depends` maps a non-platform
dependency id to a range, `DependencyValidator.validate` emits a
`missing` issue when the id is absent from the presence index, and an
`outdated` issue carrying the required range and the present version when
the present version does not satisfy the range; in particular the demo
registry (mod `a` requiring `b >= 2.0.0` with only `b@1.5.0` present)
produces exactly one issue, the expected `outdated` one. -/
theorem C7_dependency_issues :
    (∀ (reg : List (String × DependencyValidator.RegEntry)) (k : String)
      (e : DependencyValidator.RegEntry) (primary : ModEntry) (rest : List ModEntry)
      (deps : List (String × String)) (depId range : String),
      (k, e) ∈ reg → e.metadata.mods = primary :: rest → primary.depends = some deps →
      (depId, range) ∈ deps →
      DependencyValidator.platformIds.contains (DependencyValidator.lowerStr depId) = false →
      ((aget (DependencyValidator.buildPresent reg) depId = none →
        ∃ i ∈ DependencyValidator.validate reg, i.type = "missing" ∧ i.modId = depId ∧
          i.requiredBy = primary.id ∧ i.requiredVersion = range) ∧
       (∀ present : DependencyValidator.Present,
        aget (DependencyValidator.buildPresent reg) depId = some present →
        VersionComparator.satisfies present.version range = false →
        ∃ i ∈ DependencyValidator.validate reg, i.type = "outdated" ∧ i.modId = depId ∧
          i.requiredBy = primary.id ∧ i.requiredVersion = range ∧
          i.presentVersion = some present.version))) ∧
    DependencyValidator.validate demoDepReg = [demoDepIssue] := by
  constructor
  · intro reg k e primary rest deps depId range hmem hmods hdeps hdr hplat
    have hentry : DependencyValidator.entryIssues (DependencyValidator.buildPresent reg) e =
        deps.filterMap
          (DependencyValidator.depIssue (DependencyValidator.buildPresent reg) primary) := by
      simp only [DependencyValidator.entryIssues, hmods, hdeps]
    constructor
    · intro habs
      refine ⟨{ type := "missing", modId := depId, requiredBy := primary.id,
                requiredVersion := range,
                message := "Mod '" ++ primary.id ++ "' requires '" ++ depId ++ "' (" ++ range ++
                  "), but it's missing!" },
        List.mem_flatMap.2 ⟨(k, e), hmem, ?_⟩, rfl, rfl, rfl, rfl⟩
      rw [hentry]
      refine List.mem_filterMap.2 ⟨(depId, range), hdr, ?_⟩
      simp only [DependencyValidator.depIssue, hplat, habs]
      rfl
    · intro present hpres hsat
      refine ⟨{ type := "outdated", modId := depId, requiredBy := primary.id,
                requiredVersion := range, presentVersion := some present.version,
                message := "Mod '" ++ primary.id ++ "' requires version '" ++ range ++
                  "' of '" ++ depId ++ "', but version '" ++ present.version ++
                  "' is installed!" },
        List.mem_flatMap.2 ⟨(k, e), hmem, ?_⟩, rfl, rfl, rfl, rfl, rfl⟩
      rw [hentry]
      refine List.mem_filterMap.2 ⟨(depId, range), hdr, ?_⟩
      simp only [DependencyValidator.depIssue, hplat, hpres, hsat]
      rfl
  · decide

/-- Witness instantiating the general half of C7 on the demo registry. -/
theorem C7_dependency_issues_witness :
    ∃ i ∈ DependencyValidator.validate demoDepReg, i.type = "outdated" ∧ i.modId = "b" ∧
      i.requiredBy = "a" ∧ i.requiredVersion = ">=2.0.0" ∧ i.presentVersion = some "1.5.0" :=
  (C7_dependency_issues.1 demoDepReg "urlA"
    { metadata := { mods := [{ id := "a", version := "1.0.0",
                               depends := some [("b", ">=2.0.0")] }], bundled := [] },
      fileName := "a-1.0.0.jar", packName := "Pack A" }
    { id := "a", version := "1.0.0", depends := some [("b", ">=2.0.0")] } [] [("b", ">=2.0.0")]
    "b" ">=2.0.0" (by decide) (by decide) (by decide) (by decide) (by decide)).2
    { version := "1.5.0", fileName := "b-1.5.0.jar", packName := "Pack B" }
    (by decide) (by decide)

/-! ## C6: parse-failure fallbacks -/

/-- C6 counterexample: a present-but-unparseable `fabric.mod.json` yields
the `parse_error` entry, whose id is not the archive file name; and the
fetch-level fallback of `extract` carries no `depends` field at all
rather than an empty mapping. -/
theorem C6_counterexample :
    (JarMetadataExtractor.parseMetadata demoBrokenZip "broken.jar").mods.map ModEntry.id =
      ["parse_error"] ∧
    ¬(JarMetadataExtractor.parseMetadata demoBrokenZip "broken.jar").mods.map ModEntry.id =
      ["broken.jar"] ∧
    (JarMetadataExtractor.extract demoEnvNone [] "https://example.com/a.jar"
        "a.jar").metadata.mods.map ModEntry.depends = [none] := by
  exact ⟨by decide, by decide, by decide⟩

/-- C6 amended. On a fetch or archive-load failure (a cache miss whose
fetch fails) the returned metadata is the file-name fallback: one
`ModEntry` with id equal to the archive file name, version `unknown` and
no `depends` field; on a fabric or forge manifest read/parse failure the
metadata is instead one `ModEntry` with id `parse_error`, version
`unknown` and empty depends; an archive without a recognized manifest
also falls back to the file-name entry.  Every failure path returns a
value, so the enclosing analysis is never aborted. -/
theorem C6_fallback_metadata :
    (∀ (env : String → Option ZipData) (cache : JarMetadataExtractor.Cache) (url fn : String),
      env url = none → aget cache url = none →
      (JarMetadataExtractor.extract env cache url fn).metadata =
        JarMetadataExtractor.fallbackMeta fn) ∧
    JarMetadataExtractor.parseFabricMod none = JarMetadataExtractor.parseErrMeta ∧
    JarMetadataExtractor.parseForgeMod none = JarMetadataExtractor.parseErrMeta ∧
    (∀ fn, JarMetadataExtractor.parseMetadata (ZipData.mk none none) fn =
      JarMetadataExtractor.fallbackMeta fn) := by
  refine ⟨?_, rfl, rfl, fun fn => rfl⟩
  intro env cache url fn henv hc
  simp only [JarMetadataExtractor.extract, henv, hc]

/-- Witness instantiating the fetch-failure half of C6's amended claim. -/
theorem C6_fallback_metadata_witness :
    (JarMetadataExtractor.extract demoEnvNone [] "https://example.com/b.jar" "b.jar").metadata =
      JarMetadataExtractor.fallbackMeta "b.jar" :=
  C6_fallback_metadata.1 demoEnvNone [] "https://example.com/b.jar" "b.jar" rfl rfl

/-! ## C5: the metadata cache -/

theorem analyzeOne_registry (env : String → Option ZipData) (st : ConflictResolver.AnState)
    (f : ConflictResolver.AFile) :
    ∃ v, (ConflictResolver.analyzeOne env st f).registry =
      aset st.registry (ConflictResolver.sourceKey f) v := by
  unfold ConflictResolver.analyzeOne
  split <;> exact ⟨_, rfl⟩

theorem analyze_foldl_keys (env : String → Option ZipData) :
    ∀ (l : List ConflictResolver.AFile) (st : ConflictResolver.AnState) (k : String),
      (aget (l.foldl (ConflictResolver.analyzeOne env) st).registry k).isSome = true →
      (aget st.registry k).isSome = true ∨ ∃ f ∈ l, k = ConflictResolver.sourceKey f := by
  intro l
  induction l with
  | nil => intro st k h; exact Or.inl h
  | cons f rest ih =>
    intro st k h
    rcases ih (ConflictResolver.analyzeOne env st f) k h with h1 | ⟨g, hg, hk⟩
    · rcases analyzeOne_registry env st f with ⟨v, hv⟩
      rw [hv] at h1
      rcases aget_aset_dom _ _ _ _ h1 with h2 | h2
      · exact Or.inr ⟨f, List.mem_cons_self f rest, h2⟩
      · exact Or.inl h2
    · exact Or.inr ⟨g, List.mem_cons_of_mem _ hg, hk⟩

/-- C5 counterexample: local (standard) entries are registered under
`local:pack_id:path` but the registry is rebuilt from scratch on every
analysis, so a second metadata lookup of the same local source key
performs another parse (the parse counter of the second run is 1, not
0). -/
theorem C5_counterexample :
    (aget (ConflictResolver.analyzeFiles demoEnvNone [] [demoStd]).registry
        "local:p1:mods/a.jar").isSome = true ∧
    (ConflictResolver.analyzeFiles demoEnvNone
        (ConflictResolver.analyzeFiles demoEnvNone [] [demoStd]).cache [demoStd]).parses = 1 := by
  exact ⟨by decide, by decide⟩

/-- C5 amended. The extractor cache is keyed by the download URL and a
hit never re-fetches and never re-parses: a second `extract` of the same
URL returns the same metadata with zero fetches and zero parses.  The
analysis registry is keyed by the download URL for remote files and by
`local:pack_id:path` for local entries (every key of the registry is the
source key of some enabled mods file of the analyzed list), but it is
cleared on every analysis and local entries are re-parsed each run. -/
theorem C5_cache_keying_memoization :
    (∀ (env : String → Option ZipData) (cache : JarMetadataExtractor.Cache) (url fn : String),
      JarMetadataExtractor.extract env
          (JarMetadataExtractor.extract env cache url fn).cache url fn =
        ⟨(JarMetadataExtractor.extract env cache url fn).metadata,
          (JarMetadataExtractor.extract env cache url fn).cache, 0, 0⟩) ∧
    (∀ (env : String → Option ZipData) (cache : JarMetadataExtractor.Cache)
      (files : List ConflictResolver.AFile) (k : String),
      (aget (ConflictResolver.analyzeFiles env cache files).registry k).isSome = true →
      ∃ f ∈ files, f.enabled = true ∧ f.category = "mods" ∧
        k = ConflictResolver.sourceKey f) := by
  constructor
  · intro env cache url fn
    rcases h : aget cache url with _ | v
    · rcases henv : env url with _ | z
      · simp only [JarMetadataExtractor.extract, h, henv, aget_aset_self]
      · simp only [JarMetadataExtractor.extract, h, henv, aget_aset_self]
    · simp only [JarMetadataExtractor.extract, h]
  · intro env cache files k h
    rcases analyze_foldl_keys env _ _ k h with h1 | ⟨f, hf, hk⟩
    · simp [aget] at h1
    · rcases List.mem_filter.1 hf with ⟨hmem, hp⟩
      rw [Bool.and_eq_true] at hp
      exact ⟨f, hmem, hp.1, of_decide_eq_true hp.2, hk⟩

/-- Witness instantiating the registry-keying half of C5's amended claim
on the demo standard file. -/
theorem C5_cache_keying_memoization_witness :
    ∃ f ∈ [demoStd], f.enabled = true ∧ f.category = "mods" ∧
      "local:p1:mods/a.jar" = ConflictResolver.sourceKey f :=
  C5_cache_keying_memoization.2 demoEnvNone [] [demoStd] "local:p1:mods/a.jar" (by decide)

/-! ## The resolver's per-file step factored through decisions -/

theorem processFile_eq (regs : ConflictResolver.Regs) (pn : String) (f : FileRec) :
    ConflictResolver.processFile regs pn f =
      (ConflictResolver.patch f
        (ConflictResolver.decideFile regs pn (ConflictResolver.staticOf f)),
       ConflictResolver.regsStep regs pn (ConflictResolver.staticOf f)) := by
  cases h1 : aget regs.pathReg f.path with
  | some kept =>
    simp [ConflictResolver.processFile, ConflictResolver.decideFile,
      ConflictResolver.regsStep, ConflictResolver.staticOf, ConflictResolver.patch, h1]
  | none =>
    cases hm : f.metadata with
    | none =>
      by_cases hcat : f.category = "mods"
      · cases hslug : aget regs.slugReg (ConflictResolver.extractModSlug f.fileName) with
        | some ex =>
          simp [ConflictResolver.processFile, ConflictResolver.decideFile,
            ConflictResolver.regsStep, ConflictResolver.staticOf, ConflictResolver.patch,
            ConflictResolver.slugCheck, ConflictResolver.slugDecide,
            ConflictResolver.slugRegsStep, h1, hm, hcat, hslug]
        | none =>
          simp [ConflictResolver.processFile, ConflictResolver.decideFile,
            ConflictResolver.regsStep, ConflictResolver.staticOf, ConflictResolver.patch,
            ConflictResolver.slugCheck, ConflictResolver.slugDecide,
            ConflictResolver.slugRegsStep, h1, hm, hcat, hslug]
      · simp [ConflictResolver.processFile, ConflictResolver.decideFile,
          ConflictResolver.regsStep, ConflictResolver.staticOf, ConflictResolver.patch,
          ConflictResolver.slugCheck, ConflictResolver.slugDecide,
          ConflictResolver.slugRegsStep, h1, hm, hcat]
    | some meta =>
      cases hold : ConflictResolver.findOlder regs.modIdReg meta.mods with
      | some me =>
        simp [ConflictResolver.processFile, ConflictResolver.decideFile,
          ConflictResolver.regsStep, ConflictResolver.staticOf, ConflictResolver.patch,
          h1, hm, hold]
      | none =>
        by_cases hcat : f.category = "mods"
        · cases hslug : aget regs.slugReg (ConflictResolver.extractModSlug f.fileName) with
          | some ex =>
            simp [ConflictResolver.processFile, ConflictResolver.decideFile,
              ConflictResolver.regsStep, ConflictResolver.staticOf, ConflictResolver.patch,
              ConflictResolver.slugCheck, ConflictResolver.slugDecide,
              ConflictResolver.slugRegsStep, h1, hm, hold, hcat, hslug]
          | none =>
            simp [ConflictResolver.processFile, ConflictResolver.decideFile,
              ConflictResolver.regsStep, ConflictResolver.staticOf, ConflictResolver.patch,
              ConflictResolver.slugCheck, ConflictResolver.slugDecide,
              ConflictResolver.slugRegsStep, h1, hm, hold, hcat, hslug]
        · simp [ConflictResolver.processFile, ConflictResolver.decideFile,
            ConflictResolver.regsStep, ConflictResolver.staticOf, ConflictResolver.patch,
            ConflictResolver.slugCheck, ConflictResolver.slugDecide,
            ConflictResolver.slugRegsStep, h1, hm, hold, hcat]

theorem patch_path (f : FileRec) (d : ConflictResolver.Decision) :
    (ConflictResolver.patch f d).path = f.path := by
  cases d <;> rfl

theorem patch_pId (f : FileRec) (d : ConflictResolver.Decision) :
    (ConflictResolver.patch f d).pId = f.pId := by
  cases d <;> rfl

theorem patch_keep_of_enabled (f : FileRec) (d : ConflictResolver.Decision)
    (h : (ConflictResolver.patch f d).enabled = true) : d = ConflictResolver.Decision.keep := by
  cases d with
  | keep => rfl
  | exclude ks r => simp [ConflictResolver.patch] at h

theorem staticOf_patch (f : FileRec) (d : ConflictResolver.Decision) :
    ConflictResolver.staticOf (ConflictResolver.patch f d) = ConflictResolver.staticOf f := by
  cases d <;> rfl

theorem staticOf_patchOpt (f : FileRec) (d : Option ConflictResolver.Decision) :
    ConflictResolver.staticOf (ConflictResolver.patchOpt f d) = ConflictResolver.staticOf f := by
  cases d with
  | none => rfl
  | some d => exact staticOf_patch f d

theorem slugRegsStep_pathReg (r : ConflictResolver.Regs) (rn : String)
    (s : ConflictResolver.StaticF) :
    (ConflictResolver.slugRegsStep r rn s).pathReg = r.pathReg := by
  unfold ConflictResolver.slugRegsStep
  by_cases hcat : s.category = "mods"
  · cases h : aget r.slugReg (ConflictResolver.extractModSlug s.fileName) <;> simp [hcat, h]
  · simp [hcat]

theorem regsStep_of_path_hit (regs : ConflictResolver.Regs) (pn : String)
    (s : ConflictResolver.StaticF) (k : String) (h : aget regs.pathReg s.path = some k) :
    ConflictResolver.regsStep regs pn s = regs := by
  unfold ConflictResolver.regsStep
  simp [h]

theorem regsStep_pathReg_of_miss (regs : ConflictResolver.Regs) (pn : String)
    (s : ConflictResolver.StaticF) (h : aget regs.pathReg s.path = none) :
    (ConflictResolver.regsStep regs pn s).pathReg =
      aset regs.pathReg s.path (if s.pName = "" then pn else s.pName) := by
  unfold ConflictResolver.regsStep
  simp only [h]
  cases hm : s.metadata with
  | none => rw [slugRegsStep_pathReg]
  | some meta =>
    cases hold : ConflictResolver.findOlder regs.modIdReg meta.mods with
    | some me => simp [hold]
    | none => simp [hold, slugRegsStep_pathReg]

theorem regsStep_path_mono (regs : ConflictResolver.Regs) (pn : String)
    (s : ConflictResolver.StaticF) (k : String)
    (h : (aget regs.pathReg k).isSome = true) :
    (aget (ConflictResolver.regsStep regs pn s).pathReg k).isSome = true := by
  cases h1 : aget regs.pathReg s.path with
  | some v => rw [regsStep_of_path_hit _ _ _ _ h1]; exact h
  | none => rw [regsStep_pathReg_of_miss _ _ _ h1]; exact aget_aset_isSome _ _ _ _ h

theorem regsStep_path_self (regs : ConflictResolver.Regs) (pn : String)
    (s : ConflictResolver.StaticF) (h : aget regs.pathReg s.path = none) :
    (aget (ConflictResolver.regsStep regs pn s).pathReg s.path).isSome = true := by
  rw [regsStep_pathReg_of_miss _ _ _ h, aget_aset_self]
  rfl

theorem decideFile_keep_path (regs : ConflictResolver.Regs) (pn : String)
    (s : ConflictResolver.StaticF)
    (h : ConflictResolver.decideFile regs pn s = ConflictResolver.Decision.keep) :
    aget regs.pathReg s.path = none := by
  cases h1 : aget regs.pathReg s.path with
  | none => rfl
  | some k =>
    unfold ConflictResolver.decideFile at h
    rw [h1] at h
    simp at h

/-- Per-pack behaviour of the priority pass: the path registry only
grows, a file this pack kept had an unregistered path that is registered
afterwards, two files this pack kept have distinct paths, a file this
pack excluded records its keeping source and reason, and enabled is the
negation of isDuplicate for every file of this pack. -/
theorem resolvePackGo_spec (p : Pack) :
    ∀ (fs : List FileRec) (regs : ConflictResolver.Regs),
      (∀ k, (aget regs.pathReg k).isSome = true →
        (aget (ConflictResolver.resolvePackGo p regs fs).2.pathReg k).isSome = true) ∧
      (∀ i b, (ConflictResolver.resolvePackGo p regs fs).1.get? i = some b →
        b.pId = p.id → b.enabled = true →
        (aget (ConflictResolver.resolvePackGo p regs fs).2.pathReg b.path).isSome = true ∧
          aget regs.pathReg b.path = none) ∧
      (∀ i j a b, i < j →
        (ConflictResolver.resolvePackGo p regs fs).1.get? i = some a →
        (ConflictResolver.resolvePackGo p regs fs).1.get? j = some b →
        a.pId = p.id → b.pId = p.id → a.enabled = true → b.enabled = true →
        a.path ≠ b.path) ∧
      (∀ i b, (ConflictResolver.resolvePackGo p regs fs).1.get? i = some b →
        b.pId = p.id →
        ((b.enabled = false → b.keptSource.isSome = true ∧ b.conflictReason.isSome = true) ∧
          b.enabled = !b.isDuplicate)) := by
  intro fs
  induction fs with
  | nil =>
    intro regs
    have hempty : ConflictResolver.resolvePackGo p regs [] = ([], regs) := rfl
    refine ⟨fun k h => h, ?_, ?_, ?_⟩
    · intro i b hb
      rw [hempty] at hb
      simp at hb
    · intro i j a b hij ha
      rw [hempty] at ha
      simp at ha
    · intro i b hb
      rw [hempty] at hb
      simp at hb
  | cons f fs ih =>
    intro regs
    by_cases hf : f.pId = p.id
    · have hstep : ConflictResolver.resolvePackGo p regs (f :: fs) =
          (ConflictResolver.patch f
              (ConflictResolver.decideFile regs p.name (ConflictResolver.staticOf f)) ::
            (ConflictResolver.resolvePackGo p
              (ConflictResolver.regsStep regs p.name (ConflictResolver.staticOf f)) fs).1,
           (ConflictResolver.resolvePackGo p
              (ConflictResolver.regsStep regs p.name (ConflictResolver.staticOf f)) fs).2) := by
        simp [ConflictResolver.resolvePackGo, hf, processFile_eq]
      set d := ConflictResolver.decideFile regs p.name (ConflictResolver.staticOf f) with hd
      set r1 := ConflictResolver.regsStep regs p.name (ConflictResolver.staticOf f) with hr1
      rcases ih r1 with ⟨ihmono, ihpath, ihpair, ihrec⟩
      have hmono : ∀ k, (aget regs.pathReg k).isSome = true →
          (aget (ConflictResolver.resolvePackGo p regs (f :: fs)).2.pathReg k).isSome = true := by
        intro k h
        rw [hstep]
        exact ihmono k (regsStep_path_mono _ _ _ _ h)
      refine ⟨hmono, ?_, ?_, ?_⟩
      · intro i b hb hpid hen
        rw [hstep] at hb
        cases i with
        | zero =>
          simp only [List.get?_cons_zero, Option.some.injEq] at hb
          subst hb
          have hkeep : d = ConflictResolver.Decision.keep := patch_keep_of_enabled _ _ hen
          have hfree : aget regs.pathReg f.path = none :=
            decideFile_keep_path _ _ _ (hd.symm.trans hkeep)
          constructor
          · rw [hstep]
            rw [patch_path]
            exact ihmono _ (regsStep_path_self _ _ _ hfree)
          · rw [patch_path]
            exact hfree
        | succ i =>
          simp only [List.get?_cons_succ] at hb
          rcases ihpath i b hb hpid hen with ⟨h1, h2⟩
          refine ⟨by rw [hstep]; exact h1, ?_⟩
          cases hq : aget regs.pathReg b.path with
          | none => rfl
          | some v =>
            have : (aget r1.pathReg b.path).isSome = true :=
              regsStep_path_mono _ _ _ _ (by rw [hq]; rfl)
            rw [h2] at this
            simp at this
      · intro i j a b hij haq hbq hpa hpb hea heb
        rw [hstep] at haq hbq
        cases i with
        | zero =>
          cases j with
          | zero => omega
          | succ j =>
            simp only [List.get?_cons_zero, Option.some.injEq] at haq
            simp only [List.get?_cons_succ] at hbq
            subst haq
            have hkeep : d = ConflictResolver.Decision.keep := patch_keep_of_enabled _ _ hea
            have hfree : aget regs.pathReg f.path = none :=
              decideFile_keep_path _ _ _ (hd.symm.trans hkeep)
            have hreg1 : (aget r1.pathReg f.path).isSome = true :=
              regsStep_path_self _ _ _ hfree
            rcases ihpath j b hbq hpb heb with ⟨_, h2⟩
            rw [patch_path]
            intro hpp
            rw [hpp, h2] at hreg1
            simp at hreg1
        | succ i =>
          cases j with
          | zero => omega
          | succ j =>
            simp only [List.get?_cons_succ] at haq hbq
            exact ihpair i j a b (by omega) haq hbq hpa hpb hea heb
      · intro i b hb hpid
        rw [hstep] at hb
        cases i with
        | zero =>
          simp only [List.get?_cons_zero, Option.some.injEq] at hb
          subst hb
          cases hdc : d with
          | keep =>
            exact ⟨fun h => by simp [ConflictResolver.patch] at h,
              by simp [ConflictResolver.patch]⟩
          | exclude ks r =>
            exact ⟨fun _ => ⟨rfl, rfl⟩, by simp [ConflictResolver.patch]⟩
        | succ i =>
          simp only [List.get?_cons_succ] at hb
          exact ihrec i b hb hpid
    · have hstep : ConflictResolver.resolvePackGo p regs (f :: fs) =
          (f :: (ConflictResolver.resolvePackGo p regs fs).1,
           (ConflictResolver.resolvePackGo p regs fs).2) := by
        simp [ConflictResolver.resolvePackGo, hf]
      rcases ih regs with ⟨ihmono, ihpath, ihpair, ihrec⟩
      refine ⟨?_, ?_, ?_, ?_⟩
      · intro k h
        rw [hstep]
        exact ihmono k h
      · intro i b hb hpid hen
        rw [hstep] at hb
        cases i with
        | zero =>
          simp only [List.get?_cons_zero, Option.some.injEq] at hb
          subst hb
          exact absurd hpid hf
        | succ i =>
          simp only [List.get?_cons_succ] at hb
          rcases ihpath i b hb hpid hen with ⟨h1, h2⟩
          exact ⟨by rw [hstep]; exact h1, h2⟩
      · intro i j a b hij haq hbq hpa hpb hea heb
        rw [hstep] at haq hbq
        cases i with
        | zero =>
          simp only [List.get?_cons_zero, Option.some.injEq] at haq
          subst haq
          exact absurd hpa hf
        | succ i =>
          cases j with
          | zero => omega
          | succ j =>
            simp only [List.get?_cons_succ] at haq hbq
            exact ihpair i j a b (by omega) haq hbq hpa hpb hea heb
      · intro i b hb hpid
        rw [hstep] at hb
        cases i with
        | zero =>
          simp only [List.get?_cons_zero, Option.some.injEq] at hb
          subst hb
          exact absurd hpid hf
        | succ i =>
          simp only [List.get?_cons_succ] at hb
          exact ihrec i b hb hpid

theorem resolvePackGo_cons_hit (p : Pack) (regs : ConflictResolver.Regs) (f : FileRec)
    (fs : List FileRec) (hf : f.pId = p.id) :
    ConflictResolver.resolvePackGo p regs (f :: fs) =
      (ConflictResolver.patch f
          (ConflictResolver.decideFile regs p.name (ConflictResolver.staticOf f)) ::
        (ConflictResolver.resolvePackGo p
          (ConflictResolver.regsStep regs p.name (ConflictResolver.staticOf f)) fs).1,
       (ConflictResolver.resolvePackGo p
          (ConflictResolver.regsStep regs p.name (ConflictResolver.staticOf f)) fs).2) := by
  simp [ConflictResolver.resolvePackGo, hf, processFile_eq]

theorem resolvePackGo_cons_miss (p : Pack) (regs : ConflictResolver.Regs) (f : FileRec)
    (fs : List FileRec) (hf : ¬f.pId = p.id) :
    ConflictResolver.resolvePackGo p regs (f :: fs) =
      (f :: (ConflictResolver.resolvePackGo p regs fs).1,
        (ConflictResolver.resolvePackGo p regs fs).2) := by
  simp [ConflictResolver.resolvePackGo, hf]

theorem resolvePackGo_len (p : Pack) : ∀ (fs : List FileRec) (regs : ConflictResolver.Regs),
    (ConflictResolver.resolvePackGo p regs fs).1.length = fs.length := by
  intro fs
  induction fs with
  | nil => intro regs; rfl
  | cons f fs ih =>
    intro regs
    by_cases hf : f.pId = p.id
    · rw [resolvePackGo_cons_hit p regs f fs hf]
      simp [ih]
    · rw [resolvePackGo_cons_miss p regs f fs hf]
      simp [ih]

theorem resolvePackGo_static (p : Pack) :
    ∀ (fs : List FileRec) (regs : ConflictResolver.Regs) (i : Nat) (a b : FileRec),
      fs.get? i = some a → (ConflictResolver.resolvePackGo p regs fs).1.get? i = some b →
      ConflictResolver.staticOf b = ConflictResolver.staticOf a := by
  intro fs
  induction fs with
  | nil =>
    intro regs i a b ha
    simp at ha
  | cons f fs ih =>
    intro regs i a b ha hb
    by_cases hf : f.pId = p.id
    · rw [resolvePackGo_cons_hit p regs f fs hf] at hb
      cases i with
      | zero =>
        simp only [List.get?_cons_zero, Option.some.injEq] at ha hb
        subst ha
        subst hb
        exact staticOf_patch _ _
      | succ i =>
        simp only [List.get?_cons_succ] at ha hb
        exact ih _ _ _ _ ha hb
    · rw [resolvePackGo_cons_miss p regs f fs hf] at hb
      cases i with
      | zero =>
        simp only [List.get?_cons_zero, Option.some.injEq] at ha hb
        subst ha
        subst hb
        rfl
      | succ i =>
        simp only [List.get?_cons_succ] at ha hb
        exact ih _ _ _ _ ha hb

theorem resolvePackGo_skip (p : Pack) :
    ∀ (fs : List FileRec) (regs : ConflictResolver.Regs) (i : Nat) (a : FileRec),
      fs.get? i = some a → a.pId ≠ p.id →
      (ConflictResolver.resolvePackGo p regs fs).1.get? i = some a := by
  intro fs
  induction fs with
  | nil =>
    intro regs i a ha
    simp at ha
  | cons f fs ih =>
    intro regs i a ha hpid
    by_cases hf : f.pId = p.id
    · rw [resolvePackGo_cons_hit p regs f fs hf]
      cases i with
      | zero =>
        simp only [List.get?_cons_zero, Option.some.injEq] at ha
        subst ha
        exact absurd hf hpid
      | succ i =>
        simp only [List.get?_cons_succ] at ha ⊢
        exact ih _ _ _ ha hpid
    · rw [resolvePackGo_cons_miss p regs f fs hf]
      cases i with
      | zero =>
        simp only [List.get?_cons_zero, Option.some.injEq] at ha ⊢
        exact ha
      | succ i =>
        simp only [List.get?_cons_succ] at ha ⊢
        exact ih _ _ _ ha hpid

/-- The whole pack walk: files of already-walked packs keep the
invariants (registered path when enabled, recorded source when disabled,
enabled iff not duplicate, pairwise distinct enabled paths). -/
theorem resolveAux_spec :
    ∀ (packs : List Pack) (fs : List FileRec) (regs : ConflictResolver.Regs)
      (ids : List String),
      (∀ i a, fs.get? i = some a → a.pId ∈ ids →
        ((a.enabled = true → (aget regs.pathReg a.path).isSome = true) ∧
         (a.enabled = false → a.keptSource.isSome = true ∧ a.conflictReason.isSome = true) ∧
         a.enabled = !a.isDuplicate)) →
      (∀ i j a b, i < j → fs.get? i = some a → fs.get? j = some b →
        a.pId ∈ ids → b.pId ∈ ids → a.enabled = true → b.enabled = true → a.path ≠ b.path) →
      ((∀ i a, (ConflictResolver.resolveAux packs (fs, regs)).1.get? i = some a →
        a.pId ∈ ids ++ packs.map Pack.id →
        ((a.enabled = true →
          (aget (ConflictResolver.resolveAux packs (fs, regs)).2.pathReg a.path).isSome =
            true) ∧
         (a.enabled = false → a.keptSource.isSome = true ∧ a.conflictReason.isSome = true) ∧
         a.enabled = !a.isDuplicate)) ∧
       (∀ i j a b, i < j →
        (ConflictResolver.resolveAux packs (fs, regs)).1.get? i = some a →
        (ConflictResolver.resolveAux packs (fs, regs)).1.get? j = some b →
        a.pId ∈ ids ++ packs.map Pack.id → b.pId ∈ ids ++ packs.map Pack.id →
        a.enabled = true → b.enabled = true → a.path ≠ b.path)) := by
  intro packs
  induction packs with
  | nil =>
    intro fs regs ids h1 h2
    constructor
    · intro i a ha hmem
      simp only [List.map_nil, List.append_nil] at hmem
      exact h1 i a ha hmem
    · intro i j a b hij ha hb hma hmb
      simp only [List.map_nil, List.append_nil] at hma hmb
      exact h2 i j a b hij ha hb hma hmb
  | cons p ps ih =>
    intro fs regs ids h1 h2
    rcases resolvePackGo_spec p fs regs with ⟨smono, spath, spair, srec⟩
    have hstep : ConflictResolver.resolveAux (p :: ps) (fs, regs) =
        ConflictResolver.resolveAux ps
          ((ConflictResolver.resolvePackGo p regs fs).1,
           (ConflictResolver.resolvePackGo p regs fs).2) := rfl
    set fs1 := (ConflictResolver.resolvePackGo p regs fs).1 with hfs1
    set r1 := (ConflictResolver.resolvePackGo p regs fs).2 with hr1
    have hinv1 : ∀ i a, fs1.get? i = some a → a.pId ∈ ids ++ [p.id] →
        ((a.enabled = true → (aget r1.pathReg a.path).isSome = true) ∧
         (a.enabled = false → a.keptSource.isSome = true ∧ a.conflictReason.isSome = true) ∧
         a.enabled = !a.isDuplicate) := by
      intro i a ha hmem
      by_cases hpid : a.pId = p.id
      · exact ⟨fun hen => (spath i a ha hpid hen).1, (srec i a ha hpid).1,
          (srec i a ha hpid).2⟩
      · have hmem2 : a.pId ∈ ids := by
          rcases List.mem_append.1 hmem with h | h
          · exact h
          · exact absurd (List.mem_singleton.1 h) hpid
        have hlen : i < fs.length := by
          rw [← resolvePackGo_len p fs regs]
          exact List.get?_eq_some.1 ha |>.1
        have ha0 : fs.get? i = some (fs.get ⟨i, hlen⟩) := List.get?_eq_get hlen
        have heq : fs1.get? i = some (fs.get ⟨i, hlen⟩) := by
          apply resolvePackGo_skip p fs regs i _ ha0
          have hst := resolvePackGo_static p fs regs i _ _ ha0 ha
          have : a.pId = (fs.get ⟨i, hlen⟩).pId := congrArg ConflictResolver.StaticF.pId hst
          rw [← this]
          exact hpid
        have haa : a = fs.get ⟨i, hlen⟩ := by
          rw [ha] at heq
          exact Option.some.inj heq
        rcases h1 i a (haa ▸ ha0) hmem2 with ⟨k1, k2, k3⟩
        exact ⟨fun hen => smono _ (k1 hen), k2, k3⟩
    have hinv2 : ∀ i j a b, i < j → fs1.get? i = some a → fs1.get? j = some b →
        a.pId ∈ ids ++ [p.id] → b.pId ∈ ids ++ [p.id] →
        a.enabled = true → b.enabled = true → a.path ≠ b.path := by
      intro i j a b hij ha hb hma hmb hea heb
      by_cases hpa : a.pId = p.id <;> by_cases hpb : b.pId = p.id
      · exact spair i j a b hij ha hb hpa hpb hea heb
      · have hmb2 : b.pId ∈ ids := by
          rcases List.mem_append.1 hmb with h | h
          · exact h
          · exact absurd (List.mem_singleton.1 h) hpb
        have hlen : j < fs.length := by
          rw [← resolvePackGo_len p fs regs]
          exact List.get?_eq_some.1 hb |>.1
        have hb0 : fs.get? j = some (fs.get ⟨j, hlen⟩) := List.get?_eq_get hlen
        have heq : fs1.get? j = some (fs.get ⟨j, hlen⟩) := by
          apply resolvePackGo_skip p fs regs j _ hb0
          have hst := resolvePackGo_static p fs regs j _ _ hb0 hb
          have : b.pId = (fs.get ⟨j, hlen⟩).pId := congrArg ConflictResolver.StaticF.pId hst
          rw [← this]
          exact hpb
        have hbb : b = fs.get ⟨j, hlen⟩ := by
          rw [hb] at heq
          exact Option.some.inj heq
        have hbreg : (aget regs.pathReg b.path).isSome = true :=
          (h1 j b (hbb ▸ hb0) hmb2).1 heb
        have hafree : aget regs.pathReg a.path = none := (spath i a ha hpa hea).2
        intro hpp
        rw [hpp] at hafree
        rw [hafree] at hbreg
        simp at hbreg
      · have hma2 : a.pId ∈ ids := by
          rcases List.mem_append.1 hma with h | h
          · exact h
          · exact absurd (List.mem_singleton.1 h) hpa
        have hlen : i < fs.length := by
          rw [← resolvePackGo_len p fs regs]
          exact List.get?_eq_some.1 ha |>.1
        have ha0 : fs.get? i = some (fs.get ⟨i, hlen⟩) := List.get?_eq_get hlen
        have heq : fs1.get? i = some (fs.get ⟨i, hlen⟩) := by
          apply resolvePackGo_skip p fs regs i _ ha0
          have hst := resolvePackGo_static p fs regs i _ _ ha0 ha
          have : a.pId = (fs.get ⟨i, hlen⟩).pId := congrArg ConflictResolver.StaticF.pId hst
          rw [← this]
          exact hpa
        have haa : a = fs.get ⟨i, hlen⟩ := by
          rw [ha] at heq
          exact Option.some.inj heq
        have hareg : (aget regs.pathReg a.path).isSome = true :=
          (h1 i a (haa ▸ ha0) hma2).1 hea
        have hbfree : aget regs.pathReg b.path = none := (spath j b hb hpb heb).2
        intro hpp
        rw [← hpp] at hbfree
        rw [hbfree] at hareg
        simp at hareg
      · have hma2 : a.pId ∈ ids := by
          rcases List.mem_append.1 hma with h | h
          · exact h
          · exact absurd (List.mem_singleton.1 h) hpa
        have hmb2 : b.pId ∈ ids := by
          rcases List.mem_append.1 hmb with h | h
          · exact h
          · exact absurd (List.mem_singleton.1 h) hpb
        have hleni : i < fs.length := by
          rw [← resolvePackGo_len p fs regs]
          exact List.get?_eq_some.1 ha |>.1
        have hlenj : j < fs.length := by
          rw [← resolvePackGo_len p fs regs]
          exact List.get?_eq_some.1 hb |>.1
        have ha0 : fs.get? i = some (fs.get ⟨i, hleni⟩) := List.get?_eq_get hleni
        have hb0 : fs.get? j = some (fs.get ⟨j, hlenj⟩) := List.get?_eq_get hlenj
        have heqa : fs1.get? i = some (fs.get ⟨i, hleni⟩) := by
          apply resolvePackGo_skip p fs regs i _ ha0
          have hst := resolvePackGo_static p fs regs i _ _ ha0 ha
          have : a.pId = (fs.get ⟨i, hleni⟩).pId := congrArg ConflictResolver.StaticF.pId hst
          rw [← this]
          exact hpa
        have heqb : fs1.get? j = some (fs.get ⟨j, hlenj⟩) := by
          apply resolvePackGo_skip p fs regs j _ hb0
          have hst := resolvePackGo_static p fs regs j _ _ hb0 hb
          have : b.pId = (fs.get ⟨j, hlenj⟩).pId := congrArg ConflictResolver.StaticF.pId hst
          rw [← this]
          exact hpb
        have haa : a = fs.get ⟨i, hleni⟩ := by
          rw [ha] at heqa
          exact Option.some.inj heqa
        have hbb : b = fs.get ⟨j, hlenj⟩ := by
          rw [hb] at heqb
          exact Option.some.inj heqb
        exact h2 i j a b hij (haa ▸ ha0) (hbb ▸ hb0) hma2 hmb2 hea heb
    have hres := ih fs1 r1 (ids ++ [p.id]) hinv1 hinv2
    have hmemeq : ∀ x : String,
        (x ∈ (ids ++ [p.id]) ++ ps.map Pack.id) ↔ (x ∈ ids ++ (p :: ps).map Pack.id) := by
      intro x
      simp [List.mem_append, List.mem_cons, or_assoc]
    constructor
    · intro i a ha hmem
      exact hres.1 i a ha ((hmemeq a.pId).2 hmem)
    · intro i j a b hij ha hb hma hmb
      exact hres.2 i j a b hij ha hb ((hmemeq a.pId).2 hma) ((hmemeq b.pId).2 hmb)

/-! ## C1: uniqueness of enabled paths after resolution -/

/-- C1 counterexample: quantified over arbitrary file and pack lists the
claim fails, because `resolveByPriority` only touches files whose `pId`
matches a pack of the list — here two distinct enabled files with the
same path survive a resolution over an empty pack list untouched. -/
theorem C1_counterexample :
    ConflictResolver.resolveByPriority [demoOrphan1, demoOrphan2] [demoPackA] =
      [demoOrphan1, demoOrphan2] ∧
    demoOrphan1.enabled = true ∧ demoOrphan2.enabled = true ∧
    demoOrphan1.path = demoOrphan2.path ∧ demoOrphan1 ≠ demoOrphan2 := by
  exact ⟨by decide, rfl, rfl, rfl, by decide⟩

/-- C1 amended. After `resolveByPriority` completes over any file list
and pack list, among the files that belong to a pack of the list no two
enabled files share a path, and every file the pass disabled records the
keeping source (and a conflict reason). -/
theorem C1_resolved_paths_unique :
    (∀ (files : List FileRec) (packs : List Pack) (i j : Nat) (a b : FileRec),
      i ≠ j →
      (ConflictResolver.resolveByPriority files packs).get? i = some a →
      (ConflictResolver.resolveByPriority files packs).get? j = some b →
      a.pId ∈ packs.map Pack.id → b.pId ∈ packs.map Pack.id →
      a.enabled = true → b.enabled = true → a.path ≠ b.path) ∧
    (∀ (files : List FileRec) (packs : List Pack) (i : Nat) (a : FileRec),
      (ConflictResolver.resolveByPriority files packs).get? i = some a →
      a.pId ∈ packs.map Pack.id → a.enabled = false →
      a.keptSource.isSome = true ∧ a.conflictReason.isSome = true) := by
  have main : ∀ (files : List FileRec) (packs : List Pack), _ :=
    fun (files : List FileRec) (packs : List Pack) =>
      resolveAux_spec packs files ConflictResolver.emptyRegs []
        (fun _ _ _ hmem => absurd hmem (List.not_mem_nil _))
        (fun _ _ _ _ _ _ _ hma => absurd hma (List.not_mem_nil _))
  constructor
  · intro files packs i j a b hij ha hb hma hmb hea heb
    rcases Nat.lt_trichotomy i j with h | h | h
    · exact (main files packs).2 i j a b h ha hb hma hmb hea heb
    · exact absurd h hij
    · exact fun hpp => (main files packs).2 j i b a h hb ha hmb hma heb hea hpp.symm
  · intro files packs i a ha hmem hdis
    exact ((main files packs).1 i a ha hmem).2.1 hdis

/-- Witness instantiating both halves of C1's amended claim on concrete
two-file resolutions. -/
theorem C1_resolved_paths_unique_witness :
    demoFA.path ≠ demoJA.path ∧
    ({ demoJB with enabled := false, isDuplicate := true, keptSource := some "Pack A",
                   conflictReason := some "Possible duplicate of journeymap-5.9.jar" } :
      FileRec).keptSource.isSome = true := by
  constructor
  · exact C1_resolved_paths_unique.1 [demoFA, demoJA] [demoPackA] 0 1 demoFA demoJA
      (by decide) (by decide) (by decide) (by decide) (by decide) rfl rfl
  · exact (C1_resolved_paths_unique.2 [demoJA, demoJB] [demoPackA, demoPackB] 1
      { demoJB with enabled := false, isDuplicate := true, keptSource := some "Pack A",
                    conflictReason := some "Possible duplicate of journeymap-5.9.jar" }
      (by decide) (by decide) (by decide)).1

/-! ## C2: exclusion of older versions by mod id -/

theorem compare_neg (a b : String) :
    VersionComparator.compare a b = -VersionComparator.compare b a :=
  cmp3_neg _ _

theorem findOlder_of_exists (reg : List (String × ConflictResolver.ModIdReg)) :
    ∀ mods : List ModEntry,
      (∃ m ∈ mods, ∃ e : ConflictResolver.ModIdReg,
        aget reg m.id = some e ∧ VersionComparator.compare m.version e.version < 0) →
      ∃ m e, ConflictResolver.findOlder reg mods = some (m, e) ∧ m ∈ mods ∧
        aget reg m.id = some e ∧ VersionComparator.compare m.version e.version < 0 := by
  intro mods
  induction mods with
  | nil =>
    intro h
    rcases h with ⟨m, hm, _⟩
    simp at hm
  | cons m0 ms ih =>
    intro h
    rcases h with ⟨m, hm, e, he, hcmp⟩
    cases hg : aget reg m0.id with
    | some e0 =>
      by_cases hc : VersionComparator.compare m0.version e0.version < 0
      · refine ⟨m0, e0, ?_, List.mem_cons_self _ _, hg, hc⟩
        simp [ConflictResolver.findOlder, hg, hc]
      · have htail : ∃ m ∈ ms, ∃ e : ConflictResolver.ModIdReg,
            aget reg m.id = some e ∧ VersionComparator.compare m.version e.version < 0 := by
          rcases List.mem_cons.1 hm with heq | hmem
          · subst heq
            rw [hg] at he
            rcases Option.some.inj he with rfl
            exact absurd hcmp hc
          · exact ⟨m, hmem, e, he, hcmp⟩
        rcases ih htail with ⟨m1, e1, hfo, hm1, he1, hc1⟩
        refine ⟨m1, e1, ?_, List.mem_cons_of_mem _ hm1, he1, hc1⟩
        simp [ConflictResolver.findOlder, hg, hc, hfo]
    | none =>
      have htail : ∃ m ∈ ms, ∃ e : ConflictResolver.ModIdReg,
          aget reg m.id = some e ∧ VersionComparator.compare m.version e.version < 0 := by
        rcases List.mem_cons.1 hm with heq | hmem
        · subst heq
          rw [hg] at he
          cases he
        · exact ⟨m, hmem, e, he, hcmp⟩
      rcases ih htail with ⟨m1, e1, hfo, hm1, he1, hc1⟩
      refine ⟨m1, e1, ?_, List.mem_cons_of_mem _ hm1, he1, hc1⟩
      simp [ConflictResolver.findOlder, hg, hfo]

/-- C2. During the priority pass a file (that is not an exact path
duplicate) carrying metadata is excluded whenever the mod-id registry
already holds a strictly newer version for one of its mod ids: it ends
disabled, marked duplicate, with conflict reason naming the mod id; and
loading pack A with `libx@1.2.0` before pack B with `libx@1.1.0` excludes
B's file with reason `Older version (Mod ID: libx)`. -/
theorem C2_older_version_excluded :
    (∀ (regs : ConflictResolver.Regs) (pn : String) (f : FileRec) (meta : ModMetadata),
      aget regs.pathReg f.path = none →
      f.metadata = some meta →
      (∃ m ∈ meta.mods, ∃ e : ConflictResolver.ModIdReg,
        aget regs.modIdReg m.id = some e ∧
        0 < VersionComparator.compare e.version m.version) →
      ∃ m ∈ meta.mods, ∃ e : ConflictResolver.ModIdReg,
        aget regs.modIdReg m.id = some e ∧
        0 < VersionComparator.compare e.version m.version ∧
        (ConflictResolver.processFile regs pn f).1.enabled = false ∧
        (ConflictResolver.processFile regs pn f).1.isDuplicate = true ∧
        (ConflictResolver.processFile regs pn f).1.keptSource = some e.packName ∧
        (ConflictResolver.processFile regs pn f).1.conflictReason =
          some ("Older version (Mod ID: " ++ m.id ++ ")")) ∧
    (ConflictResolver.resolveByPriority [demoFA, demoFB] [demoPackA, demoPackB]).get? 1 =
      some { demoFB with enabled := false, isDuplicate := true, keptSource := some "Pack A",
                         conflictReason := some "Older version (Mod ID: libx)" } := by
  constructor
  · intro regs pn f meta hpath hmeta hex
    have hex2 : ∃ m ∈ meta.mods, ∃ e : ConflictResolver.ModIdReg,
        aget regs.modIdReg m.id = some e ∧
        VersionComparator.compare m.version e.version < 0 := by
      rcases hex with ⟨m, hm, e, he, hc⟩
      refine ⟨m, hm, e, he, ?_⟩
      rw [compare_neg] at hc
      omega
    rcases findOlder_of_exists regs.modIdReg meta.mods hex2 with ⟨m, e, hfo, hm, he, hc⟩
    refine ⟨m, hm, e, he, ?_, ?_, ?_, ?_, ?_⟩
    · rw [compare_neg e.version m.version]
      omega
    all_goals
      simp [ConflictResolver.processFile, hpath, hmeta, hfo]
  · decide

/-- Witness instantiating the general half of C2 on pack B's `libx@1.1.0`
file with `libx@1.2.0` already registered from pack A. -/
theorem C2_older_version_excluded_witness :
    ∃ m ∈ ({ mods := [{ id := "libx", version := "1.1.0" }], bundled := [] } :
        ModMetadata).mods,
      ∃ e : ConflictResolver.ModIdReg,
        aget (⟨[], [("libx", ⟨"1.2.0", "Pack A"⟩)], []⟩ :
            ConflictResolver.Regs).modIdReg m.id = some e ∧
        0 < VersionComparator.compare e.version m.version ∧
        (ConflictResolver.processFile ⟨[], [("libx", ⟨"1.2.0", "Pack A"⟩)], []⟩ "Pack B"
            demoFB).1.enabled = false ∧
        (ConflictResolver.processFile ⟨[], [("libx", ⟨"1.2.0", "Pack A"⟩)], []⟩ "Pack B"
            demoFB).1.isDuplicate = true ∧
        (ConflictResolver.processFile ⟨[], [("libx", ⟨"1.2.0", "Pack A"⟩)], []⟩ "Pack B"
            demoFB).1.keptSource = some e.packName ∧
        (ConflictResolver.processFile ⟨[], [("libx", ⟨"1.2.0", "Pack A"⟩)], []⟩ "Pack B"
            demoFB).1.conflictReason = some ("Older version (Mod ID: " ++ m.id ++ ")") :=
  C2_older_version_excluded.1 ⟨[], [("libx", ⟨"1.2.0", "Pack A"⟩)], []⟩ "Pack B" demoFB
    { mods := [{ id := "libx", version := "1.1.0" }], bundled := [] } rfl rfl
    ⟨{ id := "libx", version := "1.1.0" }, by decide,
      ⟨"1.2.0", "Pack A"⟩, by decide, by decide⟩

/-! ## C3: slug computation and slug duplicates -/

theorem markerAfter_eq (cs : List Char) :
    ConflictResolver.markerAfter cs =
      ((cs.getD 0 ' ').isDigit ||
        ((cs.getD 0 ' ' = 'v' || cs.getD 0 ' ' = 'V') && (cs.getD 1 ' ').isDigit)) := by
  cases cs with
  | nil => decide
  | cons d ds =>
    cases ds with
    | nil => simp [ConflictResolver.markerAfter, List.getD]
    | cons e es => rfl

theorem isMarkerIdx_zero (c : Char) (cs : List Char) :
    ConflictResolver.isMarkerIdx (c :: cs) 0 =
      ((c = '-' || c = '+') && ConflictResolver.markerAfter cs) := by
  rw [markerAfter_eq]
  rfl

theorem isMarkerIdx_succ (c : Char) (cs : List Char) (i : Nat) :
    ConflictResolver.isMarkerIdx (c :: cs) (i + 1) = ConflictResolver.isMarkerIdx cs i := rfl

theorem findMarker_eq : ∀ cs : List Char,
    ConflictResolver.findMarker cs =
      ((List.range cs.length).find? (fun i => ConflictResolver.isMarkerIdx cs i)).map
        (fun i => cs.take i) := by
  intro cs
  induction cs with
  | nil => rfl
  | cons c cs ih =>
    rw [show (c :: cs).length = cs.length + 1 from rfl, List.range_succ_eq_map, List.find?_cons]
    cases hz : ConflictResolver.isMarkerIdx (c :: cs) 0 with
    | true =>
      rw [isMarkerIdx_zero] at hz
      rw [ConflictResolver.findMarker, if_pos hz]
      rfl
    | false =>
      rw [isMarkerIdx_zero] at hz
      rw [ConflictResolver.findMarker, if_neg (by rw [hz]; exact Bool.false_ne_true), ih,
        List.find?_map,
        show ((fun i => ConflictResolver.isMarkerIdx (c :: cs) i) ∘ Nat.succ) =
          (fun i => ConflictResolver.isMarkerIdx cs i) from funext fun i => rfl]
      cases (List.range cs.length).find? (fun i => ConflictResolver.isMarkerIdx cs i) <;> rfl

/-- C3. For every file name with a trailing `.jar` the source's slug
(`extractModSlug`) is exactly the spec-described slug: drop the trailing
`.jar`, strip from the first occurrence of `-`/`+` followed by a digit or
`v`+digit onward, lowercase and trim; and for the metadata-less files
`journeymap-5.9.jar` (pack A) and `journeymap-5.9-fabric.jar` (pack B),
loaded A then B, B's file is excluded with conflict reason
`Possible duplicate of journeymap-5.9.jar`. -/
theorem C3_slug_and_duplicate :
    (∀ f : String, ConflictResolver.endsWithJarL f.toList = true →
      ConflictResolver.extractModSlug f = ConflictResolver.slugSpec f) ∧
    (ConflictResolver.resolveByPriority [demoJA, demoJB] [demoPackA, demoPackB]).get? 1 =
      some { demoJB with enabled := false, isDuplicate := true, keptSource := some "Pack A",
                         conflictReason := some "Possible duplicate of journeymap-5.9.jar" } := by
  constructor
  · intro f hjar
    simp only [ConflictResolver.extractModSlug, ConflictResolver.slugSpec, hjar, Bool.not_true,
      Bool.false_eq_true, if_false, findMarker_eq]
    cases (List.range (f.toList.take (f.toList.length - 4)).length).find?
        (fun i => ConflictResolver.isMarkerIdx (f.toList.take (f.toList.length - 4)) i) <;> rfl
  · decide

/-- Witness instantiating the slug characterization of C3 at pack B's
file name. -/
theorem C3_slug_and_duplicate_witness :
    ConflictResolver.extractModSlug "journeymap-5.9-fabric.jar" =
      ConflictResolver.slugSpec "journeymap-5.9-fabric.jar" :=
  C3_slug_and_duplicate.1 "journeymap-5.9-fabric.jar" (by decide)

/-! ## Decision-list factorization of the whole pack walk (for C4, C10) -/

theorem packDecide_len (p : Pack) : ∀ (ss : List ConflictResolver.StaticF)
    (regs : ConflictResolver.Regs),
    (ConflictResolver.packDecide p regs ss).1.length = ss.length := by
  intro ss
  induction ss with
  | nil => intro regs; rfl
  | cons s ss ih =>
    intro regs
    by_cases hs : s.pId = p.id <;> simp [ConflictResolver.packDecide, hs, ih]

theorem resolvePackGo_factor (p : Pack) : ∀ (fs : List FileRec)
    (regs : ConflictResolver.Regs),
    ConflictResolver.resolvePackGo p regs fs =
      (List.zipWith ConflictResolver.patchOpt fs
        (ConflictResolver.packDecide p regs
          (fs.map ConflictResolver.staticOf)).1,
       (ConflictResolver.packDecide p regs (fs.map ConflictResolver.staticOf)).2) := by
  intro fs
  induction fs with
  | nil => intro regs; rfl
  | cons f fs ih =>
    intro regs
    by_cases hf : f.pId = p.id
    · rw [resolvePackGo_cons_hit p regs f fs hf]
      have hs : (ConflictResolver.staticOf f).pId = p.id := hf
      simp only [List.map_cons, ConflictResolver.packDecide, hs, if_pos, List.zipWith_cons_cons]
      rw [ih]
      rfl
    · rw [resolvePackGo_cons_miss p regs f fs hf]
      have hs : ¬(ConflictResolver.staticOf f).pId = p.id := hf
      simp only [List.map_cons, ConflictResolver.packDecide, hs, if_neg, List.zipWith_cons_cons]
      rw [ih]
      rfl

theorem zipPatch_map_static : ∀ (fs : List FileRec)
    (ds : List (Option ConflictResolver.Decision)), ds.length = fs.length →
    (List.zipWith ConflictResolver.patchOpt fs ds).map ConflictResolver.staticOf =
      fs.map ConflictResolver.staticOf := by
  intro fs
  induction fs with
  | nil => intro ds h; rfl
  | cons f fs ih =>
    intro ds h
    cases ds with
    | nil => simp at h
    | cons d ds =>
      simp only [List.zipWith_cons_cons, List.map_cons, staticOf_patchOpt]
      rw [ih ds (by simpa using h)]

theorem resolveAux_get_factor :
    ∀ (packs : List Pack) (fs : List FileRec) (regs : ConflictResolver.Regs) (i : Nat),
      ((∀ f, fs.get? i = some f →
        (ConflictResolver.resolveAux packs (fs, regs)).1.get? i =
          some (List.foldl ConflictResolver.patchOpt f
            (ConflictResolver.decisionCol packs regs (fs.map ConflictResolver.staticOf) i))) ∧
       (fs.get? i = none → (ConflictResolver.resolveAux packs (fs, regs)).1.get? i = none)) := by
  intro packs
  induction packs with
  | nil =>
    intro fs regs i
    exact ⟨fun f hf => by simpa [ConflictResolver.resolveAux,
      ConflictResolver.decisionCol] using hf,
      fun hf => by simpa [ConflictResolver.resolveAux] using hf⟩
  | cons p ps ih =>
    intro fs regs i
    have hstep : ConflictResolver.resolveAux (p :: ps) (fs, regs) =
        ConflictResolver.resolveAux ps
          ((ConflictResolver.resolvePackGo p regs fs).1,
           (ConflictResolver.resolvePackGo p regs fs).2) := rfl
    rw [hstep, resolvePackGo_factor p fs regs]
    set ss := fs.map ConflictResolver.staticOf with hss
    set ds := (ConflictResolver.packDecide p regs ss).1 with hds
    set r1 := (ConflictResolver.packDecide p regs ss).2 with hr1
    have hlen : ds.length = fs.length := by
      rw [hds, packDecide_len]
      simp [hss]
    have hmapeq : (List.zipWith ConflictResolver.patchOpt fs ds).map ConflictResolver.staticOf =
        ss := by
      rw [zipPatch_map_static fs ds hlen, hss]
    constructor
    · intro f hf
      have hi : i < fs.length := (List.get?_eq_some.1 hf).1
      have hdi : ∃ d, ds.get? i = some d := by
        have : i < ds.length := by rw [hlen]; exact hi
        rcases List.get?_eq_some.2 ⟨this, rfl⟩ with h
        exact ⟨_, h⟩
      rcases hdi with ⟨d, hd⟩
      have hz : (List.zipWith ConflictResolver.patchOpt fs ds).get? i =
          some (ConflictResolver.patchOpt f d) := by
        rw [List.get?_zipWith']
        rw [hf, hd]
        rfl
      have := (ih (List.zipWith ConflictResolver.patchOpt fs ds) r1 i).1
        (ConflictResolver.patchOpt f d) hz
      rw [this, hmapeq]
      have hcol : ConflictResolver.decisionCol (p :: ps) regs ss i =
          d :: ConflictResolver.decisionCol ps r1 ss i := by
        rw [ConflictResolver.decisionCol]
        rw [← hds, ← hr1, hd]
        rfl
      rw [hcol]
      rfl
    · intro hf
      have hz : (List.zipWith ConflictResolver.patchOpt fs ds).get? i = none := by
        rw [List.get?_zipWith', hf]
        rfl
      exact (ih (List.zipWith ConflictResolver.patchOpt fs ds) r1 i).2 hz

theorem applySummary_none (f : FileRec) :
    ConflictResolver.applySummary f (none, none) = f := rfl

theorem patchOpt_applySummary (f : FileRec)
    (acc : Option Bool × Option (String × String)) (c : Option ConflictResolver.Decision) :
    ConflictResolver.patchOpt (ConflictResolver.applySummary f acc) c =
      ConflictResolver.applySummary f (ConflictResolver.sumStep acc c) := by
  rcases acc with ⟨o1, o2⟩
  cases c with
  | none => rfl
  | some d =>
    cases d with
    | keep =>
      cases o1 <;> cases o2 <;> rfl
    | exclude ks r =>
      cases o1 <;> cases o2 <;> rfl

theorem foldl_patchOpt_summary : ∀ (col : List (Option ConflictResolver.Decision))
    (f : FileRec) (acc : Option Bool × Option (String × String)),
    List.foldl ConflictResolver.patchOpt (ConflictResolver.applySummary f acc) col =
      ConflictResolver.applySummary f (List.foldl ConflictResolver.sumStep acc col) := by
  intro col
  induction col with
  | nil => intro f acc; rfl
  | cons c col ih =>
    intro f acc
    rw [List.foldl_cons, List.foldl_cons, patchOpt_applySummary, ih]

theorem foldl_patchOpt_eq_summary (col : List (Option ConflictResolver.Decision))
    (f : FileRec) :
    List.foldl ConflictResolver.patchOpt f col =
      ConflictResolver.applySummary f (List.foldl ConflictResolver.sumStep (none, none) col) := by
  have := foldl_patchOpt_summary col f (none, none)
  rwa [applySummary_none] at this

theorem applySummary_idem (f : FileRec) (s : Option Bool × Option (String × String)) :
    ConflictResolver.applySummary (ConflictResolver.applySummary f s) s =
      ConflictResolver.applySummary f s := by
  rcases s with ⟨o1, o2⟩
  cases o1 <;> cases o2 <;> rfl

theorem applySummary_static (f : FileRec) (s : Option Bool × Option (String × String)) :
    ConflictResolver.staticOf (ConflictResolver.applySummary f s) =
      ConflictResolver.staticOf f := by
  rcases s with ⟨o1, o2⟩
  cases o1 <;> cases o2 <;> rfl

theorem applySummary_enabled (f : FileRec) (s : Option Bool × Option (String × String))
    (b : Bool) (h : s.1 = some b) :
    (ConflictResolver.applySummary f s).enabled = b ∧
      (ConflictResolver.applySummary f s).isDuplicate = !b := by
  rcases s with ⟨o1, o2⟩
  cases o1 with
  | none => cases h
  | some b0 =>
    rcases Option.some.inj h with rfl
    cases o2 <;> exact ⟨rfl, rfl⟩

theorem applySummary_disable (f : FileRec) (s : Option Bool × Option (String × String))
    (h : s.1.isSome = true) :
    ConflictResolver.applySummary { f with enabled := false } s =
      ConflictResolver.applySummary f s := by
  rcases s with ⟨o1, o2⟩
  cases o1 with
  | none => simp at h
  | some b0 => cases o2 <;> rfl

theorem sumStep_fold_preserve : ∀ (col : List (Option ConflictResolver.Decision))
    (acc : Option Bool × Option (String × String)), acc.1.isSome = true →
    ((List.foldl ConflictResolver.sumStep acc col).1).isSome = true := by
  intro col
  induction col with
  | nil => intro acc h; exact h
  | cons c col ih =>
    intro acc h
    rw [List.foldl_cons]
    apply ih
    cases c with
    | none => exact h
    | some d => cases d <;> rfl

theorem sumStep_fold_some : ∀ (col : List (Option ConflictResolver.Decision))
    (acc : Option Bool × Option (String × String)),
    (∃ c ∈ col, c.isSome = true) →
    ((List.foldl ConflictResolver.sumStep acc col).1).isSome = true := by
  intro col
  induction col with
  | nil =>
    intro acc h
    rcases h with ⟨c, hc, _⟩
    simp at hc
  | cons c0 col ih =>
    intro acc h
    rcases h with ⟨c, hc, hsome⟩
    rcases List.mem_cons.1 hc with rfl | hmem
    · rw [List.foldl_cons]
      apply sumStep_fold_preserve
      cases c with
      | none => simp at hsome
      | some d => cases d <;> rfl
    · rw [List.foldl_cons]
      exact ih _ ⟨c, hmem, hsome⟩

theorem packDecide_get (p : Pack) : ∀ (ss : List ConflictResolver.StaticF)
    (regs : ConflictResolver.Regs) (i : Nat) (s : ConflictResolver.StaticF),
    ss.get? i = some s →
    ∃ d, (ConflictResolver.packDecide p regs ss).1.get? i = some d ∧
      (d.isSome = true ↔ s.pId = p.id) := by
  intro ss
  induction ss with
  | nil =>
    intro regs i s hs
    simp at hs
  | cons s0 ss ih =>
    intro regs i s hs
    by_cases h0 : s0.pId = p.id
    · rw [show ConflictResolver.packDecide p regs (s0 :: ss) =
          (some (ConflictResolver.decideFile regs p.name s0) ::
            (ConflictResolver.packDecide p (ConflictResolver.regsStep regs p.name s0) ss).1,
           (ConflictResolver.packDecide p (ConflictResolver.regsStep regs p.name s0) ss).2)
        from by simp [ConflictResolver.packDecide, h0]]
      cases i with
      | zero =>
        simp only [List.get?_cons_zero, Option.some.injEq] at hs
        subst hs
        exact ⟨_, rfl, by simp [h0]⟩
      | succ i =>
        simp only [List.get?_cons_succ] at hs ⊢
        exact ih _ i s hs
    · rw [show ConflictResolver.packDecide p regs (s0 :: ss) =
          (none :: (ConflictResolver.packDecide p regs ss).1,
           (ConflictResolver.packDecide p regs ss).2)
        from by simp [ConflictResolver.packDecide, h0]]
      cases i with
      | zero =>
        simp only [List.get?_cons_zero, Option.some.injEq] at hs
        subst hs
        exact ⟨_, rfl, by simp [h0]⟩
      | succ i =>
        simp only [List.get?_cons_succ] at hs ⊢
        exact ih _ i s hs

theorem decisionCol_some : ∀ (packs : List Pack) (regs : ConflictResolver.Regs)
    (ss : List ConflictResolver.StaticF) (i : Nat) (s : ConflictResolver.StaticF),
    ss.get? i = some s → s.pId ∈ packs.map Pack.id →
    ∃ c ∈ ConflictResolver.decisionCol packs regs ss i, c.isSome = true := by
  intro packs
  induction packs with
  | nil =>
    intro regs ss i s hs hmem
    simp at hmem
  | cons p ps ih =>
    intro regs ss i s hs hmem
    rw [List.map_cons] at hmem
    rcases List.mem_cons.1 hmem with heq | hmem2
    · rcases packDecide_get p ss regs i s hs with ⟨d, hd, hiff⟩
      refine ⟨((ConflictResolver.packDecide p regs ss).1.get? i).getD none, ?_, ?_⟩
      · rw [ConflictResolver.decisionCol]
        exact List.mem_cons_self _ _
      · rw [hd]
        exact hiff.2 heq
    · rcases ih (ConflictResolver.packDecide p regs ss).2 ss i s hs hmem2
        with ⟨c, hc, hsome⟩
      refine ⟨c, ?_, hsome⟩
      rw [ConflictResolver.decisionCol]
      exact List.mem_cons_of_mem _ hc

theorem staticOf_foldl_patchOpt : ∀ (col : List (Option ConflictResolver.Decision))
    (f : FileRec),
    ConflictResolver.staticOf (List.foldl ConflictResolver.patchOpt f col) =
      ConflictResolver.staticOf f := by
  intro col
  induction col with
  | nil => intro f; rfl
  | cons c col ih =>
    intro f
    rw [List.foldl_cons, ih, staticOf_patchOpt]

theorem resolveAux_len (packs : List Pack) :
    ∀ (fs : List FileRec) (regs : ConflictResolver.Regs),
      (ConflictResolver.resolveAux packs (fs, regs)).1.length = fs.length := by
  induction packs with
  | nil => intro fs regs; rfl
  | cons p ps ih =>
    intro fs regs
    have hstep : ConflictResolver.resolveAux (p :: ps) (fs, regs) =
        ConflictResolver.resolveAux ps
          ((ConflictResolver.resolvePackGo p regs fs).1,
           (ConflictResolver.resolvePackGo p regs fs).2) := rfl
    rw [hstep, ih, resolvePackGo_len]

theorem resolveAux_map_static (packs : List Pack) (fs : List FileRec)
    (regs : ConflictResolver.Regs) :
    (ConflictResolver.resolveAux packs (fs, regs)).1.map ConflictResolver.staticOf =
      fs.map ConflictResolver.staticOf := by
  apply List.ext_get?_iff.2
  intro n
  rw [List.get?_map, List.get?_map]
  cases hx : fs.get? n with
  | none =>
    rw [(resolveAux_get_factor packs fs regs n).2 hx]
  | some f =>
    rw [(resolveAux_get_factor packs fs regs n).1 f hx]
    simp [staticOf_foldl_patchOpt]

/-! ## C4: purity and idempotence of resolution -/

/-- C4 counterexample: the resolved state is not a pure function of the
current pack order — `keptSource` and `conflictReason` of a file the pass
keeps retain leftovers of an earlier resolution.  `demoJAStale` differs
from `demoJA` only in those leftover fields, yet the two resolutions
disagree on the resolved record. -/
theorem C4_counterexample :
    ConflictResolver.staticOf demoJAStale = ConflictResolver.staticOf demoJA ∧
    (ConflictResolver.resolveByPriority [demoJAStale] [demoPackA]).get? 0 ≠
      (ConflictResolver.resolveByPriority [demoJA] [demoPackA]).get? 0 := by
  exact ⟨rfl, by decide⟩

/-- C4 amended. For files belonging to a pack of the list, the resolved
`enabled` and `isDuplicate` flags are determined solely by the current
pack order and the files' identity fields (path, name, pack, category,
metadata) — they are independent of any earlier resolution's leftover
state; and re-running resolution with the same order is idempotent on the
full state.  (`keptSource`/`conflictReason` of kept files retain their
prior values, which is what the counterexample exhibits.) -/
theorem C4_resolution_pure_idempotent :
    (∀ (packs : List Pack) (x y : List FileRec) (i : Nat) (a b : FileRec),
      x.map ConflictResolver.staticOf = y.map ConflictResolver.staticOf →
      a.pId ∈ packs.map Pack.id →
      (ConflictResolver.resolveByPriority x packs).get? i = some a →
      (ConflictResolver.resolveByPriority y packs).get? i = some b →
      a.enabled = b.enabled ∧ a.isDuplicate = b.isDuplicate) ∧
    (∀ (packs : List Pack) (x : List FileRec),
      ConflictResolver.resolveByPriority (ConflictResolver.resolveByPriority x packs) packs =
        ConflictResolver.resolveByPriority x packs) := by
  constructor
  · intro packs x y i a b hstat hmem hax hby
    have hax3 : (ConflictResolver.resolveAux packs (x, ConflictResolver.emptyRegs)).1.get? i =
        some a := hax
    have hby3 : (ConflictResolver.resolveAux packs (y, ConflictResolver.emptyRegs)).1.get? i =
        some b := hby
    cases hx : x.get? i with
    | none =>
      rw [(resolveAux_get_factor packs x ConflictResolver.emptyRegs i).2 hx] at hax3
      cases hax3
    | some xf =>
      have hleny : i < y.length := by
        have hlen : x.length = y.length := by
          have := congrArg List.length hstat
          simpa using this
        rw [← hlen]
        exact (List.get?_eq_some.1 hx).1
      have hyf : y.get? i = some (y.get ⟨i, hleny⟩) := List.get?_eq_get hleny
      have hfac1 := (resolveAux_get_factor packs x ConflictResolver.emptyRegs i).1 xf hx
      have hfac2 := (resolveAux_get_factor packs y ConflictResolver.emptyRegs i).1 _ hyf
      rw [← hstat] at hfac2
      have ha2 : a = List.foldl ConflictResolver.patchOpt xf
          (ConflictResolver.decisionCol packs ConflictResolver.emptyRegs
            (x.map ConflictResolver.staticOf) i) :=
        (Option.some.inj (hfac1.symm.trans hax3)).symm
      have hb2 : b = List.foldl ConflictResolver.patchOpt (y.get ⟨i, hleny⟩)
          (ConflictResolver.decisionCol packs ConflictResolver.emptyRegs
            (x.map ConflictResolver.staticOf) i) :=
        (Option.some.inj (hfac2.symm.trans hby3)).symm
      have hss : (x.map ConflictResolver.staticOf).get? i =
          some (ConflictResolver.staticOf xf) := by
        rw [List.get?_map, hx]
        rfl
      have hpid : (ConflictResolver.staticOf xf).pId ∈ packs.map Pack.id := by
        have hsa : ConflictResolver.staticOf a = ConflictResolver.staticOf xf := by
          rw [ha2, staticOf_foldl_patchOpt]
        have : a.pId = (ConflictResolver.staticOf xf).pId :=
          congrArg ConflictResolver.StaticF.pId hsa
        rw [← this]
        exact hmem
      rcases decisionCol_some packs ConflictResolver.emptyRegs _ i _ hss hpid with
        ⟨c, hc, hcs⟩
      have hS : ((List.foldl ConflictResolver.sumStep (none, none)
          (ConflictResolver.decisionCol packs ConflictResolver.emptyRegs
            (x.map ConflictResolver.staticOf) i)).1).isSome = true :=
        sumStep_fold_some _ _ ⟨c, hc, hcs⟩
      rcases Option.isSome_iff_exists.1 hS with ⟨bb, hbb⟩
      rw [foldl_patchOpt_eq_summary] at ha2 hb2
      rcases applySummary_enabled xf _ bb hbb with ⟨he1, hd1⟩
      rcases applySummary_enabled (y.get ⟨i, hleny⟩) _ bb hbb with ⟨he2, hd2⟩
      rw [ha2, hb2, he1, hd1, he2, hd2]
      exact ⟨rfl, rfl⟩
  · intro packs x
    apply List.ext_get?_iff.2
    intro n
    show (ConflictResolver.resolveAux packs
        (ConflictResolver.resolveByPriority x packs, ConflictResolver.emptyRegs)).1.get? n =
      (ConflictResolver.resolveAux packs (x, ConflictResolver.emptyRegs)).1.get? n
    cases hx : x.get? n with
    | none =>
      have h1 : (ConflictResolver.resolveAux packs
          (x, ConflictResolver.emptyRegs)).1.get? n = none :=
        (resolveAux_get_factor packs x ConflictResolver.emptyRegs n).2 hx
      have h2 : (ConflictResolver.resolveByPriority x packs).get? n = none := h1
      rw [(resolveAux_get_factor packs _ ConflictResolver.emptyRegs n).2 h2, h1]
    | some f =>
      have h1 : (ConflictResolver.resolveByPriority x packs).get? n =
          some (List.foldl ConflictResolver.patchOpt f
            (ConflictResolver.decisionCol packs ConflictResolver.emptyRegs
              (x.map ConflictResolver.staticOf) n)) :=
        (resolveAux_get_factor packs x ConflictResolver.emptyRegs n).1 f hx
      have hmap : (ConflictResolver.resolveByPriority x packs).map ConflictResolver.staticOf =
          x.map ConflictResolver.staticOf :=
        resolveAux_map_static packs x ConflictResolver.emptyRegs
      have h2 := (resolveAux_get_factor packs (ConflictResolver.resolveByPriority x packs)
        ConflictResolver.emptyRegs n).1 _ h1
      rw [hmap] at h2
      have h1b : (ConflictResolver.resolveAux packs
          (x, ConflictResolver.emptyRegs)).1.get? n =
          some (List.foldl ConflictResolver.patchOpt f
            (ConflictResolver.decisionCol packs ConflictResolver.emptyRegs
              (x.map ConflictResolver.staticOf) n)) := h1
      rw [h2, h1b]
      congr 1
      rw [foldl_patchOpt_eq_summary _ (List.foldl ConflictResolver.patchOpt f
        (ConflictResolver.decisionCol packs ConflictResolver.emptyRegs
          (x.map ConflictResolver.staticOf) n)),
        foldl_patchOpt_eq_summary _ f, applySummary_idem]

/-- Witness instantiating the purity half of C4: the stale and fresh
variants of pack A's file resolve to the same `enabled`/`isDuplicate`. -/
theorem C4_resolution_pure_idempotent_witness :
    demoJAStale.enabled = demoJA.enabled ∧ demoJAStale.isDuplicate = demoJA.isDuplicate :=
  C4_resolution_pure_idempotent.1 [demoPackA] [demoJAStale] [demoJA] 0 demoJAStale demoJA
    (by decide) (by decide) (by decide) (by decide)

/-! ## C10: enabled equals not-isDuplicate; manual disablement discarded -/

/-- C10. After `resolveByPriority`, every file belonging to a pack of the
list has `enabled` equal to the negation of `isDuplicate`; and the pass
discards any manual per-file disablement: disabling every file beforehand
does not change the resolved record of any file belonging to a listed
pack. -/
theorem C10_enabled_iff_not_duplicate :
    (∀ (files : List FileRec) (packs : List Pack) (i : Nat) (a : FileRec),
      (ConflictResolver.resolveByPriority files packs).get? i = some a →
      a.pId ∈ packs.map Pack.id → a.enabled = !a.isDuplicate) ∧
    (∀ (files : List FileRec) (packs : List Pack) (i : Nat) (a : FileRec),
      files.get? i = some a → a.pId ∈ packs.map Pack.id →
      (ConflictResolver.resolveByPriority
        (files.map fun f => { f with enabled := false }) packs).get? i =
        (ConflictResolver.resolveByPriority files packs).get? i) := by
  constructor
  · intro files packs i a ha hmem
    have main := resolveAux_spec packs files ConflictResolver.emptyRegs []
      (fun _ _ _ hm => absurd hm (List.not_mem_nil _))
      (fun _ _ _ _ _ _ _ hm => absurd hm (List.not_mem_nil _))
    exact (main.1 i a ha hmem).2.2
  · intro files packs i a hx hmem
    show (ConflictResolver.resolveAux packs
        (files.map fun f => { f with enabled := false },
          ConflictResolver.emptyRegs)).1.get? i =
      (ConflictResolver.resolveAux packs (files, ConflictResolver.emptyRegs)).1.get? i
    have hmap : ((files.map fun f => { f with enabled := false }).map
        ConflictResolver.staticOf) = files.map ConflictResolver.staticOf := by
      rw [List.map_map]
      rfl
    have hdx : (files.map fun f => { f with enabled := false }).get? i =
        some { a with enabled := false } := by
      rw [List.get?_map, hx]
      rfl
    have h1 := (resolveAux_get_factor packs
      (files.map fun f => { f with enabled := false })
      ConflictResolver.emptyRegs i).1 _ hdx
    rw [hmap] at h1
    have h2 := (resolveAux_get_factor packs files ConflictResolver.emptyRegs i).1 a hx
    rw [h1, h2]
    congr 1
    rw [foldl_patchOpt_eq_summary, foldl_patchOpt_eq_summary]
    apply applySummary_disable
    have hss : (files.map ConflictResolver.staticOf).get? i =
        some (ConflictResolver.staticOf a) := by
      rw [List.get?_map, hx]
      rfl
    rcases decisionCol_some packs ConflictResolver.emptyRegs _ i _ hss hmem with ⟨c, hc, hcs⟩
    exact sumStep_fold_some _ _ ⟨c, hc, hcs⟩

/-- Witness instantiating C10 on pack A's single kept file. -/
theorem C10_enabled_iff_not_duplicate_witness :
    demoJA.enabled = !demoJA.isDuplicate :=
  C10_enabled_iff_not_duplicate.1 [demoJA] [demoPackA] 0 demoJA (by decide) (by decide)

end ModpackMerger
